import Mathlib

/-!
Shallow embedding of the response-protocol layer of the game-generator app:
the `parseAiOutput` response parser, the rejection probe and error wiring of
`handleGenerate`, the export wire format of `handleExport`, the import flow of
`handleFileSelected`, the label-table decoder of `generateHtmlTemplate`, the
parameter-value coercion of `analyzeGameScript`, and the idea-offer splitter
of `ChatPanel`.

Text is modelled as `List Char` (the type alias `Str`), so every string
operation of the source (`trim`, `indexOf`, `substring`, `split`, `replace`)
becomes an explicit executable function on character lists.  `JSON.parse` and
`JSON.stringify` are modelled by an executable fuel-indexed parser and
printer over a `Json` value type; numeric values keep their source token (the
development does not model IEEE-754 float normalisation, which none of the
verified properties observe).
-/

set_option maxHeartbeats 1000000

namespace Ainara

/-- Character-list strings, the working representation of JS strings. -/
abbrev Str := List Char

/-- Whitespace recognised by JSON (`JSON.parse`): space, tab, LF, CR. -/
def isJsonWs (c : Char) : Bool :=
  c = ' ' || c = '\t' || c = '\n' || c = '\r'

/-- Whitespace recognised by `String.prototype.trim` (ECMA WhiteSpace and
line terminators). -/
def isJsTrimWs (c : Char) : Bool :=
  let n := c.toNat
  (0x9 ≤ n && n ≤ 0xD) || n = 0x20 || n = 0xA0 || n = 0x1680 ||
  (0x2000 ≤ n && n ≤ 0x200A) || n = 0x2028 || n = 0x2029 ||
  n = 0x202F || n = 0x205F || n = 0x3000 || n = 0xFEFF

/-- Decimal digit test. -/
def isDigitCh (c : Char) : Bool := '0' ≤ c && c ≤ '9'

/-- ASCII-only lower-casing, the canonicalisation a non-unicode `/i` regex
flag performs on the ASCII letters of its pattern. -/
def asciiLower (c : Char) : Char :=
  if 'A' ≤ c && c ≤ 'Z' then Char.ofNat (c.toNat + 32) else c

/-- Drop leading characters satisfying `p`. -/
def dropLeading (p : Char → Bool) : Str → Str
  | [] => []
  | c :: rest => if p c then dropLeading p rest else c :: rest

/-- The model of `String.prototype.trim`: drop JS whitespace at both ends. -/
def jsTrim (s : Str) : Str :=
  ((dropLeading isJsTrimWs s).reverse |> dropLeading isJsTrimWs).reverse

/-- Generic prefix test under a character matcher `f pat-char subject-char`. -/
def matchesAt (f : Char → Char → Bool) : Str → Str → Bool
  | [], _ => true
  | _ :: _, [] => false
  | p :: ps, c :: cs => f p c && matchesAt f ps cs

/-- Split a string at the first match of `pat` under matcher `f`: returns the
text before the match and the text after it.  `none` when `pat` never
matches.  This models `indexOf` plus the two `substring` calls around it. -/
def splitAtFirstBy (f : Char → Char → Bool) (pat : Str) : Str → Option (Str × Str)
  | [] => if matchesAt f pat [] then some ([], []) else none
  | c :: rest =>
    if matchesAt f pat (c :: rest) then some ([], (c :: rest).drop pat.length)
    else
      match splitAtFirstBy f pat rest with
      | some (pre, post) => some (c :: pre, post)
      | none => none

/-- Case-sensitive first-occurrence split (plain `indexOf`). -/
def splitAtFirst (pat : Str) (s : Str) : Option (Str × Str) :=
  splitAtFirstBy (fun p c => p = c) pat s

/-- ASCII-case-insensitive first-occurrence split (`/i`-flag regex search for
a literal pattern; `pat` is given in lower case). -/
def splitAtFirstCi (pat : Str) (s : Str) : Option (Str × Str) :=
  splitAtFirstBy (fun p c => p = asciiLower c) pat s

/-- Substring-occurrence test: `s.indexOf(pat) !== -1`. -/
def occursIn (pat s : Str) : Bool := (splitAtFirst pat s).isSome

/-- Case-insensitive occurrence test. -/
def occursInCi (pat s : Str) : Bool := (splitAtFirstCi pat s).isSome

/-- The model of `String.prototype.split` with a one-character separator:
`"".split(sep)` is `[""]`, and separators delimit (possibly empty) fields. -/
def jsSplitOnChar (sep : Char) : Str → List Str
  | [] => [[]]
  | c :: rest =>
    match jsSplitOnChar sep rest with
    | [] => [[]]
    | h :: t => if c = sep then [] :: h :: t else (c :: h) :: t

/-- Fuel-indexed worker for `jsSplitOnStr`. -/
def jsSplitOnStrAux (pat : Str) : Nat → Str → List Str
  | 0, s => [s]
  | fuel + 1, s =>
    match splitAtFirst pat s with
    | none => [s]
    | some (pre, post) => pre :: jsSplitOnStrAux pat fuel post

/-- The model of `String.prototype.split` with a (nonempty) string separator:
split at each non-overlapping occurrence, left to right. -/
def jsSplitOnStr (pat s : Str) : List Str := jsSplitOnStrAux pat (s.length + 1) s

/-! ## JSON values

`JSON.parse` produces JS values; `Json` is their model.  A number keeps the
raw token text it was parsed from (printed back verbatim), object fields keep
first-insertion order with a later duplicate key overwriting the earlier
value in place, exactly as JS object construction does. -/

/-- A JSON value. -/
inductive Json where
  | jnull
  | jbool (b : Bool)
  | jnum (tok : Str)
  | jstr (s : Str)
  | jarr (elems : List Json)
  | jobj (fields : List (Str × Json))

/-- Insert a parsed object member: a repeated key overwrites the earlier
value in place, a fresh key appends (JS property-creation order). -/
def insertField (k : Str) (v : Json) : List (Str × Json) → List (Str × Json)
  | [] => [(k, v)]
  | (k', v') :: t => if k' = k then (k', v) :: t else (k', v') :: insertField k v t

/-- Worker for `buildFields`: members are inserted left to right into the
accumulated object. -/
def buildFieldsAux (acc : List (Str × Json)) : List (Str × Json) → List (Str × Json)
  | [] => acc
  | (k, v) :: t => buildFieldsAux (insertField k v acc) t

/-- Construct a JS object from its members in source order. -/
def buildFields (ms : List (Str × Json)) : List (Str × Json) := buildFieldsAux [] ms

/-- Associative lookup of an object member. -/
def lookupField (k : Str) : List (Str × Json) → Option Json
  | [] => none
  | (k', v) :: t => if k' = k then some v else lookupField k t

/-! ## The JSON parser (model of `JSON.parse`)

A recursive-descent parser over `Str`, structurally recursive on a fuel
counter that exceeds any possible nesting of the input (the top level feeds
`length + 1`, and every nesting level consumes at least one character). -/

/-- Scan stage: the digits of an exponent; `tokSoFar` is the token text
already accepted, `sgn` the exponent's sign characters. -/
def scanExpDigits (tokSoFar : Str) (e : Char) (sgn : Str) (r1 : Str) : Option (Str × Str) :=
  let (ed, r2) := r1.span isDigitCh
  if ed = [] then none else some (tokSoFar ++ e :: (sgn ++ ed), r2)

/-- Scan stage: exponent sign and digits after `e`/`E`. -/
def scanExpTail (tokSoFar : Str) (e : Char) (r : Str) : Option (Str × Str) :=
  if r.head? = some '+' then scanExpDigits tokSoFar e ['+'] r.tail
  else if r.head? = some '-' then scanExpDigits tokSoFar e ['-'] r.tail
  else scanExpDigits tokSoFar e [] r

/-- Scan stage: optional exponent after the mantissa. -/
def scanExpPart (tokSoFar : Str) (s : Str) : Option (Str × Str) :=
  if s.head? = some 'e' then scanExpTail tokSoFar 'e' s.tail
  else if s.head? = some 'E' then scanExpTail tokSoFar 'E' s.tail
  else some (tokSoFar, s)

/-- Scan stage: optional fraction after the integer part. -/
def scanFrac (tokSoFar : Str) (s2 : Str) : Option (Str × Str) :=
  if s2.head? = some '.' then
    let (fd, s3) := s2.tail.span isDigitCh
    if fd = [] then none else scanExpPart (tokSoFar ++ '.' :: fd) s3
  else scanExpPart tokSoFar s2

/-- Scan stage: integer part (JSON forbids leading zeros), then fraction
and exponent. -/
def scanMantissa (sign : Str) (s1 : Str) : Option (Str × Str) :=
  let (ip, s2) := s1.span isDigitCh
  if ip = [] then none
  else if ip.head? = some '0' && ip.length ≠ 1 then none
  else scanFrac (sign ++ ip) s2

/-- Scan a JSON number token (`-?(0|[1-9][0-9]*)(\.[0-9]+)?([eE][+-]?[0-9]+)?`)
at the head of `s`; returns the token text and the rest. -/
def scanNumber (s : Str) : Option (Str × Str) :=
  if s.head? = some '-' then scanMantissa ['-'] s.tail
  else scanMantissa [] s

/-- One hexadecimal digit's value. -/
def hexDigitVal (c : Char) : Option Nat :=
  let n := c.toNat
  if 48 ≤ n ∧ n ≤ 57 then some (n - 48)
  else if 97 ≤ n ∧ n ≤ 102 then some (n - 87)
  else if 65 ≤ n ∧ n ≤ 70 then some (n - 55)
  else none

/-- Value of a four-hex-digit escape. -/
def hexQuad (a b c d : Char) : Option Nat := do
  let x ← hexDigitVal a
  let y ← hexDigitVal b
  let z ← hexDigitVal c
  let w ← hexDigitVal d
  pure (((x * 16 + y) * 16 + z) * 16 + w)

/-- Prepend a decoded character to a string-body parse result. -/
def consDecoded (c : Char) : Option (Str × Str) → Option (Str × Str)
  | some (s, r) => some (c :: s, r)
  | none => none

/-- Parse the body of a JSON string after its opening quote: handles the
named escapes, `\uXXXX` (combining a surrogate pair into one scalar — a model
restriction: a lone surrogate, representable in a JS string but not in a Lean
`Char`, is rejected), and rejects raw control characters.  Returns the
decoded content and the rest after the closing quote. -/
def parseStringBody : Str → Option (Str × Str)
  | [] => none
  | '"' :: rest => some ([], rest)
  | '\\' :: '"' :: rest => consDecoded '"' (parseStringBody rest)
  | '\\' :: '\\' :: rest => consDecoded '\\' (parseStringBody rest)
  | '\\' :: '/' :: rest => consDecoded '/' (parseStringBody rest)
  | '\\' :: 'b' :: rest => consDecoded (Char.ofNat 0x8) (parseStringBody rest)
  | '\\' :: 'f' :: rest => consDecoded (Char.ofNat 0xC) (parseStringBody rest)
  | '\\' :: 'n' :: rest => consDecoded '\n' (parseStringBody rest)
  | '\\' :: 'r' :: rest => consDecoded '\r' (parseStringBody rest)
  | '\\' :: 't' :: rest => consDecoded '\t' (parseStringBody rest)
  | '\\' :: 'u' :: a :: b :: c :: d :: rest =>
    match hexQuad a b c d with
    | none => none
    | some n =>
      if 0xD800 ≤ n && n ≤ 0xDBFF then
        match rest with
        | '\\' :: 'u' :: a2 :: b2 :: c2 :: d2 :: rest2 =>
          match hexQuad a2 b2 c2 d2 with
          | some m =>
            if 0xDC00 ≤ m && m ≤ 0xDFFF then
              consDecoded (Char.ofNat (0x10000 + (n - 0xD800) * 0x400 + (m - 0xDC00)))
                (parseStringBody rest2)
            else none
          | none => none
        | _ => none
      else if 0xDC00 ≤ n && n ≤ 0xDFFF then none
      else consDecoded (Char.ofNat n) (parseStringBody rest)
  | '\\' :: _ => none
  | c :: rest =>
    if c.toNat < 0x20 then none else consDecoded c (parseStringBody rest)

/-- Parse the elements of a nonempty array, positioned at the first element;
`pv` parses one value.  Fuel bounds the element count. -/
def parseArrayTail (pv : Str → Except Str (Json × Str)) :
    Nat → Str → Except Str (List Json × Str)
  | 0, _ => .error ("Unexpected end of JSON input").data
  | fuel + 1, s => do
    let (v, r) ← pv s
    match dropLeading isJsonWs r with
    | ',' :: r2 => do
      let (vs, r3) ← parseArrayTail pv fuel r2
      pure (v :: vs, r3)
    | ']' :: r2 => pure ([v], r2)
    | _ => .error ("Expected comma or right bracket in JSON array").data

/-- Parse the members of a nonempty object, positioned at the first key;
`pv` parses one value. -/
def parseObjectTail (pv : Str → Except Str (Json × Str)) :
    Nat → Str → Except Str (List (Str × Json) × Str)
  | 0, _ => .error ("Unexpected end of JSON input").data
  | fuel + 1, s =>
    match dropLeading isJsonWs s with
    | '"' :: r =>
      match parseStringBody r with
      | none => .error ("Bad string in JSON object key").data
      | some (k, r1) =>
        match dropLeading isJsonWs r1 with
        | ':' :: r2 => do
          let (v, r3) ← pv r2
          match dropLeading isJsonWs r3 with
          | ',' :: r4 => do
            let (ms, r5) ← parseObjectTail pv fuel r4
            pure ((k, v) :: ms, r5)
          | '}' :: r4 => pure ([(k, v)], r4)
          | _ => .error ("Expected comma or right brace in JSON object").data
        | _ => .error ("Expected colon in JSON object").data
    | _ => .error ("Expected double-quoted property name in JSON object").data

/-- Parse one JSON value (leading whitespace allowed); returns it with the
unconsumed rest. -/
def parseVal : Nat → Str → Except Str (Json × Str)
  | 0, _ => .error ("Unexpected end of JSON input").data
  | fuel + 1, s =>
    match dropLeading isJsonWs s with
    | 'n' :: 'u' :: 'l' :: 'l' :: r => .ok (.jnull, r)
    | 't' :: 'r' :: 'u' :: 'e' :: r => .ok (.jbool true, r)
    | 'f' :: 'a' :: 'l' :: 's' :: 'e' :: r => .ok (.jbool false, r)
    | '"' :: r =>
      match parseStringBody r with
      | some (str, r1) => .ok (.jstr str, r1)
      | none => .error ("Bad string in JSON").data
    | '[' :: r =>
      (match dropLeading isJsonWs r with
       | ']' :: r1 => .ok (.jarr [], r1)
       | r1 =>
         match parseArrayTail (parseVal fuel) fuel r1 with
         | .ok (es, r2) => .ok (.jarr es, r2)
         | .error e => .error e)
    | '{' :: r =>
      (match dropLeading isJsonWs r with
       | '}' :: r1 => .ok (.jobj [], r1)
       | r1 =>
         match parseObjectTail (parseVal fuel) fuel r1 with
         | .ok (ms, r2) => .ok (.jobj (buildFields ms), r2)
         | .error e => .error e)
    | r =>
      match scanNumber r with
      | some (tok, r1) => .ok (.jnum tok, r1)
      | none => .error ("Unexpected token in JSON").data

/-- The model of `JSON.parse`: one value, then nothing but whitespace. -/
def jsonParse (s : Str) : Except Str Json :=
  match parseVal (s.length + 1) s with
  | .error e => .error e
  | .ok (j, rest) =>
    if dropLeading isJsonWs rest = [] then .ok j
    else .error ("Unexpected non-whitespace character after JSON data").data

/-! ## The JSON printer (model of `JSON.stringify(value, null, 2)`) -/

/-- Lower-case hexadecimal digit character for `n < 16`. -/
def toHexCh (n : Nat) : Char :=
  if n < 10 then Char.ofNat ('0'.toNat + n) else Char.ofNat ('a'.toNat + (n - 10))

/-- JSON string escaping of one character, as `JSON.stringify` performs it:
named escapes for quote, backslash and the common control characters, a
`\u00xx` escape for the remaining control characters, everything else
verbatim. -/
def escChar (c : Char) : Str :=
  if c = '"' then ['\\', '"']
  else if c = '\\' then ['\\', '\\']
  else if c = '\n' then ['\\', 'n']
  else if c = '\r' then ['\\', 'r']
  else if c = '\t' then ['\\', 't']
  else if c = Char.ofNat 0x8 then ['\\', 'b']
  else if c = Char.ofNat 0xC then ['\\', 'f']
  else if c.toNat < 0x20 then
    ['\\', 'u', '0', '0', toHexCh (c.toNat / 16), toHexCh (c.toNat % 16)]
  else [c]

/-- A double-quoted, escaped JSON string literal. -/
def quoteStr (s : Str) : Str := '"' :: (s.flatMap escChar ++ ['"'])

/-- The two-space indentation step of `JSON.stringify(value, null, 2)`. -/
def indentGap : Str := [' ', ' ']

mutual

/-- Pretty printer; `ind` is the indentation of the enclosing line.  Empty
arrays and objects print as `[]`/`{}`, nonempty ones across lines, exactly as
`JSON.stringify(value, null, 2)` lays them out. -/
def strfVal (ind : Str) : Json → Str
  | .jnull => ("null").data
  | .jbool true => ("true").data
  | .jbool false => ("false").data
  | .jnum tok => tok
  | .jstr s => quoteStr s
  | .jarr [] => ['[', ']']
  | .jarr (e :: t) =>
    '[' :: '\n' ::
      (strfItems (ind ++ indentGap) (e :: t) ++ '\n' :: (ind ++ [']']))
  | .jobj [] => ['{', '}']
  | .jobj (m :: t) =>
    '{' :: '\n' ::
      (strfFields (ind ++ indentGap) (m :: t) ++ '\n' :: (ind ++ ['}']))

/-- Pretty-printed array items at indentation `ind'`, separated by `",\n"`. -/
def strfItems (ind' : Str) : List Json → Str
  | [] => []
  | [j] => ind' ++ strfVal ind' j
  | j :: t => ind' ++ strfVal ind' j ++ ',' :: '\n' :: strfItems ind' t

/-- Pretty-printed object members at indentation `ind'` (`"key": value`),
separated by `",\n"`. -/
def strfFields (ind' : Str) : List (Str × Json) → Str
  | [] => []
  | [(k, v)] => ind' ++ quoteStr k ++ ':' :: ' ' :: strfVal ind' v
  | (k, v) :: t =>
    ind' ++ quoteStr k ++ ':' :: ' ' :: strfVal ind' v ++ ',' :: '\n' :: strfFields ind' t

end

/-- Pretty-print a value (`JSON.stringify(j, null, 2)`). -/
def stringifyPretty (j : Json) : Str := strfVal [] j

/-- The tail of a pretty-printed nonempty array after its first item's text:
a `",\n"` separator, the indentation and the text of each later item. -/
def itemsSep (ind' : Str) : List Json → Str
  | [] => []
  | j :: t => ',' :: '\n' :: (ind' ++ (strfVal ind' j ++ itemsSep ind' t))

/-- The tail of a pretty-printed nonempty object after its first member's
text. -/
def fieldsSep (ind' : Str) : List (Str × Json) → Str
  | [] => []
  | (k, v) :: t =>
    ',' :: '\n' :: (ind' ++ (quoteStr k ++ ':' :: ' ' :: (strfVal ind' v ++ fieldsSep ind' t)))

mutual

/-- Structural size of a JSON value (the termination measure of the
parse-of-print induction). -/
def jsize : Json → Nat
  | .jnull => 1
  | .jbool _ => 1
  | .jnum _ => 1
  | .jstr _ => 1
  | .jarr es => 1 + jsizeL es
  | .jobj ms => 1 + jsizeF ms

/-- Structural size of a list of JSON values. -/
def jsizeL : List Json → Nat
  | [] => 1
  | j :: t => 1 + jsize j + jsizeL t

/-- Structural size of an object member list. -/
def jsizeF : List (Str × Json) → Nat
  | [] => 1
  | (_, v) :: t => 1 + jsize v + jsizeF t

end

/-! ## Canonicity

A `Json` value is canonical when every number token is exactly what the
scanner accepts and every object's keys are pairwise distinct — both
invariants of values produced by `jsonParse`, and what the printer needs for
the parse-of-print round trip. -/

/-- Pairwise-distinct object keys. -/
def keysNodup : List (Str × Json) → Bool
  | [] => true
  | (k, _) :: t => t.all (fun p => decide (p.1 ≠ k)) && keysNodup t

mutual

/-- Canonicity of a JSON value. -/
def canonicalJson : Json → Bool
  | .jnull => true
  | .jbool _ => true
  | .jnum tok => decide (scanNumber tok = some (tok, []))
  | .jstr _ => true
  | .jarr es => canonItems es
  | .jobj ms => keysNodup ms && canonFieldVals ms

/-- Canonicity of every element of a list. -/
def canonItems : List Json → Bool
  | [] => true
  | j :: t => canonicalJson j && canonItems t

/-- Canonicity of every member value of an object. -/
def canonFieldVals : List (Str × Json) → Bool
  | [] => true
  | (_, v) :: t => canonicalJson v && canonFieldVals t

end

/-! ## JS value semantics: truthiness, member access, `Array.isArray` -/

/-- Whether a number token denotes zero (sign and exponent notwithstanding):
all of its mantissa digits are `0`. -/
def numTokenIsZero (tok : Str) : Bool :=
  ((tok.takeWhile (fun c => !(c = 'e' || c = 'E'))).filter isDigitCh).all (· = '0')

/-- JS truthiness of a member-access result (`none` models `undefined`). -/
def jsTruthy : Option Json → Bool
  | none => false
  | some .jnull => false
  | some (.jbool b) => b
  | some (.jnum tok) => !numTokenIsZero tok
  | some (.jstr s) => !s.isEmpty
  | some (.jarr _) => true
  | some (.jobj _) => true

/-- Property read on a non-null value: a named field of an object, otherwise
`undefined` (primitives and arrays have none of the properties read here). -/
def memberOf (j : Json) (k : Str) : Option Json :=
  match j with
  | .jobj fields => lookupField k fields
  | _ => none

/-- The `TypeError` message for a property read on `null`. -/
def nullReadMsg (k : Str) : Str :=
  ("Cannot read properties of null (reading \x27").data ++ k ++ ("\x27)").data

/-- Property read as JS evaluates it: throws a `TypeError` on `null`. -/
def getMember (j : Json) (k : Str) : Except Str (Option Json) :=
  match j with
  | .jnull => .error (nullReadMsg k)
  | _ => .ok (memberOf j k)

/-- The model of `Array.isArray` on a member-access result. -/
def isArrayV : Option Json → Bool
  | some (.jarr _) => true
  | _ => false

/-- The required-field validation of `parseAiOutput`:
`!gameData.title || !gameData.description || !gameData.how_to_play ||
!Array.isArray(gameData.how_to_play)`, with JS short-circuit order, so a
`null` value throws at the first property read.  `ok false` means the check
failed (missing-fields error), `ok true` that it passed. -/
def validateGameData (g : Json) : Except Str Bool := do
  let t ← getMember g (("title").data)
  if !jsTruthy t then pure false
  else do
    let d ← getMember g (("description").data)
    if !jsTruthy d then pure false
    else do
      let h ← getMember g (("how_to_play").data)
      if !jsTruthy h then pure false
      else if !isArrayV h then pure false
      else pure true

/-! ## JS string conversion (template-literal interpolation) -/

mutual

/-- Model of JS `String(v)`: strings verbatim, arrays joined with commas
(null elements empty, as `Array.prototype.toString` leaves them), plain
objects as `[object Object]`; a number prints its token (the model keeps
tokens rather than IEEE-754 doubles). -/
def jsToString : Json → Str
  | .jnull => ("null").data
  | .jbool true => ("true").data
  | .jbool false => ("false").data
  | .jnum tok => tok
  | .jstr s => s
  | .jarr es => joinElems es
  | .jobj _ => ("[object Object]").data

/-- Array elements under `Array.prototype.toString`, comma-separated. -/
def joinElems : List Json → Str
  | [] => []
  | [.jnull] => []
  | [j] => jsToString j
  | .jnull :: t => ',' :: joinElems t
  | j :: t => jsToString j ++ ',' :: joinElems t

end

/-! ## The response parser `parseAiOutput`

Faithful model of the front-end's `parseAiOutput`.  A JS exception (the
`TypeError` thrown when the required-field validation reads a property of a
`null` preamble) is modelled by the `Except.error` case; the function's
normal result is a `ParseResult` exactly as in the source. -/

/-- The begin-of-code marker token. -/
def beginMarker : Str := ("%%BEGINCODE%%").data

/-- The end-of-code marker token. -/
def endMarker : Str := ("%%ENDCODE%%").data

/-- The `parseAiOutput` result record. -/
structure ParseResult where
  gameData : Option Json
  gameScript : Option Str
  error : Option Str

/-- The missing-begin-marker error message. -/
def beginMarkerMsg : Str :=
  ("Parsing Error: \x27%%BEGINCODE%%\x27 separator not found.").data

/-- The missing-required-fields error message. -/
def missingFieldsMsg : Str :=
  ("Parsing Error: The AI response is missing one or more required fields: title, description, how_to_play (must be an array).").data

/-- The JSON-failure message prefix. -/
def jsonErrPrefix : Str := ("JSON Parsing Error: ").data

/-- The model of `.replace(/` + "```" + `json\n?/, '')`: remove the first
occurrence of the fence opener together with one following newline. -/
def stripJsonFence (s : Str) : Str :=
  match splitAtFirst (("\x60\x60\x60json").data) s with
  | none => s
  | some (pre, post) =>
    pre ++ (match post with
            | '\n' :: t => t
            | _ => post)

/-- The model of `.replace(/` + "```" + `\n?$/, '')`: remove a closing fence
at the very end of the string (with or without a trailing newline). -/
def stripEndFence (s : Str) : Str :=
  if (("\x60\x60\x60").data ++ ['\n']).isSuffixOf s then s.take (s.length - 4)
  else if (("\x60\x60\x60").data).isSuffixOf s then s.take (s.length - 3)
  else s

/-- The model of `.replace(/<script.*?>/is, '')`: remove the leftmost
shortest case-insensitive span from `<script` through the next `>`; no `>`
after the first `<script` (and hence after any later one) means no match. -/
def stripOpenScriptTag (s : Str) : Str :=
  match splitAtFirstCi (("<script").data) s with
  | none => s
  | some (pre, post) =>
    match splitAtFirst ['>'] post with
    | some (_, rest) => pre ++ rest
    | none => s

/-- The model of `.replace(/<\/script>/is, '')`: remove the first
case-insensitive occurrence of `</script>`. -/
def stripCloseScriptTag (s : Str) : Str :=
  match splitAtFirstCi (("</script>").data) s with
  | none => s
  | some (pre, post) => pre ++ post

/-- The response parser.  Idle on blank input; missing-marker, JSON and
required-field failures are reported in `ParseResult.error`; a `null`
preamble makes the validation throw (`Except.error`).  On success the
script region is truncated at the end marker, stripped of a script-tag
wrapper and trimmed. -/
def parseAiOutput (rawInput : Str) : Except Str ParseResult :=
  if (jsTrim rawInput).isEmpty then .ok ⟨none, none, none⟩
  else
    match splitAtFirst beginMarker rawInput with
    | none => .ok ⟨none, none, some beginMarkerMsg⟩
    | some (jsonString, afterMarker) =>
      let cleaned := jsTrim (stripEndFence (stripJsonFence jsonString))
      match jsonParse cleaned with
      | .error e => .ok ⟨none, none, some (jsonErrPrefix ++ e)⟩
      | .ok gameData =>
        match validateGameData gameData with
        | .error te => .error te
        | .ok false => .ok ⟨none, none, some missingFieldsMsg⟩
        | .ok true =>
          let scriptRegion :=
            match splitAtFirst endMarker afterMarker with
            | some (pre, _) => pre
            | none => afterMarker
          let script := jsTrim (stripCloseScriptTag (stripOpenScriptTag scriptRegion))
          .ok ⟨some gameData, some script, none⟩

/-! ## The generation flow (`handleGenerate`) and import flow
(`handleFileSelected`) -/

/-- The fallback reason text. -/
def noReasonMsg : Str := ("No reason provided.").data

/-- Reason of a rejection object: its truthy `reason` member interpolated,
or the fallback. -/
def rejectionReasonText (j : Json) : Str :=
  match memberOf j (("reason").data) with
  | some r => if jsTruthy (some r) then jsToString r else noReasonMsg
  | none => noReasonMsg

/-- The rejection probe of `handleGenerate`: parse the whole trimmed input
as JSON (a parse failure is silently ignored), and short-circuit when the
value is truthy and its `rejection` member is strictly `=== true`. -/
def rejectionProbe (raw : Str) : Option Str :=
  match jsonParse (jsTrim raw) with
  | .error _ => none
  | .ok j =>
    if jsTruthy (some j) then
      match memberOf j (("rejection").data) with
      | some (.jbool true) => some (("AI Rejection: ").data ++ rejectionReasonText j)
      | _ => none
    else none

/-- The credential-invalid message of `handleApiKeyError`. -/
def invalidKeyMsg : Str :=
  ("Your API key appears to be invalid or missing necessary permissions. Please select a valid API key and ensure billing is enabled for your project.").data

/-- The message `handleApiKeyError` surfaces for a caught exception. -/
def handleApiKeyErrorMessage (emsg context : Str) : Str :=
  if !emsg.isEmpty && occursIn (("Requested entity was not found").data) emsg then
    invalidKeyMsg
  else context ++ (": ").data ++ emsg

/-- What `handleGenerate` does with an oracle response. -/
inductive GenOutcome where
  | rejectionNotice (msg : Str)
  | parseFailure (msg : Str)
  | handledError (msg : Str)
  | success (gameData : Option Json) (gameScript : Option Str)

/-- The raw-text suffix appended to a parse failure on the generation path. -/
def rawOutputSuffix (raw : Str) : Str :=
  '\n' :: '\n' :: (("Raw AI Output:").data ++ '\n' :: raw)

/-- The generation flow after the oracle responds: the rejection probe, then
`parseAiOutput`; a parse failure is shown with the raw output appended, and
a thrown `TypeError` is caught by the surrounding handler as an API error. -/
def handleGenerateOutcome (raw : Str) : GenOutcome :=
  match rejectionProbe raw with
  | some msg => .rejectionNotice msg
  | none =>
    match parseAiOutput raw with
    | .error e => .handledError (handleApiKeyErrorMessage e (("API Error").data))
    | .ok r =>
      match r.error with
      | some pe => .parseFailure (pe ++ rawOutputSuffix raw)
      | none => .success r.gameData r.gameScript

/-- What `handleFileSelected` does with the text of an imported file. -/
inductive ImportOutcome where
  | unhandledFault (msg : Str)
  | importError (msg : Str)
  | success (gameData : Option Json) (gameScript : Option Str)

/-- The import flow: `parseAiOutput` on the file text; a reported failure is
prefixed with `Import Error: ` (the raw text is not appended), and a thrown
`TypeError` escapes the uncatching `reader.onload` handler. -/
def handleFileSelectedOutcome (text : Str) : ImportOutcome :=
  match parseAiOutput text with
  | .error e => .unhandledFault e
  | .ok r =>
    match r.error with
    | some pe => .importError (("Import Error: ").data ++ pe)
    | none => .success r.gameData r.gameScript

/-! ## The export wire format (`handleExport`) -/

/-- The exported file's content: the pretty-printed descriptor, a
`%%BEGINCODE%%` line, the raw script, and a final `%%ENDCODE%%` line. -/
def exportFileContent (gameData : Json) (gameScript : Str) : Str :=
  stringifyPretty gameData ++ '\n' :: (beginMarker ++ '\n' :: (gameScript ++ '\n' :: endMarker))

/-! ## The bilingual label-table decoder (`generateHtmlTemplate`) -/

/-- The seven fixed role names, in declared order. -/
def labelKeys : List Str :=
  [("language").data, ("play").data, ("howTo").data, ("settings").data,
   ("date").data, ("user").data, ("madeWith").data]

/-- The built-in bilingual default table (the `translationsObject` template
literal, character for character). -/
def defaultTranslationsObject : Str :=
  ("\n        const t = \x7b\n          comf: \x7b language: \x27Language\x27, settings: \x27Settings\x27, title: \x27General Title\x27, play: \x27Play\x27, howTo: \x27How to Play\x27, date: \x27October 28, 2025\x27, user: \x27by %user%\x27, madeWith: \x27Made with AINARA\x27 \x7d,\n          target: \x7b language: \x27Idioma\x27, settings: \x27Configuración\x27, title: \x27Título General\x27, play: \x27Jugar\x27, howTo: \x27Cómo Jugar\x27, date: \x2728 octubre 2025\x27, user: \x27de %user%\x27, madeWith: \x27Hecho con AINARA\x27 \x7d\n        \x7d;\n    ").data

/-- Compact `JSON.stringify` of a string-valued record; an `undefined` value
(an entry with no target half) is omitted, as `JSON.stringify` omits it. -/
def strMapItems : List (Str × Str) → Str
  | [] => []
  | [(k, v)] => quoteStr k ++ ':' :: quoteStr v
  | (k, v) :: t => quoteStr k ++ ':' :: quoteStr v ++ ',' :: strMapItems t

/-- Compact `JSON.stringify` of a record with possibly-undefined values. -/
def stringifyStrMap (m : List (Str × Option Str)) : Str :=
  ("\x7b").data ++
    strMapItems (m.filterMap (fun p => p.2.map (fun v => (p.1, v)))) ++
  ("\x7d").data

/-- The label-table decoder of `generateHtmlTemplate`: with a truthy
`labels` string splitting into at least seven comma-separated entries the
tables are built (entry `i` split on `/` into the comfortable and target
halves, zipped against the fixed role names); otherwise the built-in default
table stands. -/
def generateTranslationsObject (labels : Option Str) : Str :=
  match labels with
  | none => defaultTranslationsObject
  | some ls =>
    if ls.isEmpty then defaultTranslationsObject
    else
      let pairs := (jsSplitOnChar ',' ls).map (fun p => jsSplitOnChar '/' (jsTrim p))
      if labelKeys.length ≤ pairs.length then
        let comf := (List.range labelKeys.length).map
          (fun i => (labelKeys.getD i [], (pairs.getD i []).get? 0))
        let target := (List.range labelKeys.length).map
          (fun i => (labelKeys.getD i [], (pairs.getD i []).get? 1))
        ("const t = \x7b comf: ").data ++ stringifyStrMap comf ++
          (", target: ").data ++ stringifyStrMap target ++ (" \x7d;").data
      else defaultTranslationsObject

/-! ## Parameter-value coercion (`analyzeGameScript`) -/

/-- Escape internal double quotes (`.replace(/"/g, '\\"')`). -/
def escDQ (c : Char) : Str := if c = '"' then ['\\', '"'] else [c]

/-- The single-quote repair: a single-quote-delimited text is rewritten to a
double-quoted, internally-escaped literal; any other text is left alone. -/
def singleQuoteRewrite (value : Str) : Str :=
  if (value.head? == some '\x27') && (value.getLast? == some '\x27') then
    '"' :: (((value.drop 1).dropLast).flatMap escDQ ++ ['"'])
  else value

/-- Coerce one transmitted parameter-value text: the single-quote repair is
applied, the result is JSON-parsed, and a parse failure falls back to the
raw text as a literal string value. -/
def coerceParamValue (value : Str) : Json :=
  match jsonParse (singleQuoteRewrite value) with
  | .ok v => v
  | .error _ => .jstr value

/-! ## The idea-offer splitter (`ChatPanel`) -/

/-- The private idea sentinel. -/
def ideaMarker : Str := ("&&IDEA&&").data

/-- The sentinel split of an assistant body. -/
def bodyParts (body : Str) : List Str := jsSplitOnStr ideaMarker body

/-- Strip one leading markdown list decoration
(`replace(/^\s*([*\-]\s*|\d+\.\s*)/, '')`): a bullet (`*` or `-`) or an
ordinal (`digits.`), each with surrounding whitespace; no decoration leaves
the text unchanged. -/
def stripListDecor (s : Str) : Str :=
  match dropLeading isJsTrimWs s with
  | '*' :: t => dropLeading isJsTrimWs t
  | '-' :: t => dropLeading isJsTrimWs t
  | c :: t =>
    if isDigitCh c then
      match (c :: t).span isDigitCh with
      | (_, '.' :: t2) => dropLeading isJsTrimWs t2
      | _ => s
    else s
  | [] => s

/-- Offer payload of one split segment: trimmed, decoration stripped. -/
def ideaText (part : Str) : Str := stripListDecor (jsTrim part)

/-- One rendered piece of an assistant body: the text handed to the markdown
renderer, and the idea-offer payload when the use-this-idea button shows. -/
structure RenderedPart where
  text : Str
  offer : Option Str

/-- The indexed map over the split segments: segment `i` renders — except an
empty-trimmed final segment — and carries the offer button when it is not
final and its cleaned idea text is nonempty. -/
def renderPartsIdx (parts : List Str) : List RenderedPart :=
  (List.range parts.length).filterMap (fun i =>
    let part := parts.getD i []
    let isLast := decide (i = parts.length - 1)
    let idea := ideaText part
    if (jsTrim part).isEmpty && isLast then none
    else some (RenderedPart.mk part (if !isLast && !idea.isEmpty then some idea else none)))

/-- The body rendering of `ChatPanel`: the body (when truthy) splits on the
sentinel and renders via the indexed map. -/
def renderBody (body : Str) : List RenderedPart :=
  if body.isEmpty then []
  else renderPartsIdx (bodyParts body)

/-! ## Basic lemmas: `dropLeading`, `jsTrim`, `matchesAt`, `splitAtFirstBy` -/

theorem dropLeading_eq_nil_of_all {p : Char → Bool} :
    ∀ {s : Str}, s.all p = true → dropLeading p s = []
  | [], _ => rfl
  | c :: rest, h => by
    rw [List.all_cons, Bool.and_eq_true] at h
    simp [dropLeading, h.1, dropLeading_eq_nil_of_all h.2]

theorem dropLeading_cons_of_neg {p : Char → Bool} {c : Char} (s : Str)
    (h : p c = false) : dropLeading p (c :: s) = c :: s := by
  simp [dropLeading, h]

theorem dropLeading_append_of_all {p : Char → Bool} :
    ∀ {pre : Str} (s : Str), pre.all p = true →
      dropLeading p (pre ++ s) = dropLeading p s
  | [], s, _ => rfl
  | c :: rest, s, h => by
    rw [List.all_cons, Bool.and_eq_true] at h
    simp [dropLeading, h.1, dropLeading_append_of_all s h.2]

theorem dropLeading_sublist {p : Char → Bool} :
    ∀ s : Str, (dropLeading p s).Sublist s
  | [] => .refl []
  | c :: rest => by
    by_cases h : p c
    · simpa [dropLeading, h] using (dropLeading_sublist rest).cons c
    · simp [dropLeading, h]

theorem all_of_dropLeading_nil {p : Char → Bool} :
    ∀ {s : Str}, dropLeading p s = [] → s.all p = true
  | [], _ => rfl
  | c :: rest, h => by
    by_cases hc : p c
    · rw [List.all_cons, hc, Bool.true_and]
      exact all_of_dropLeading_nil (by simpa [dropLeading, hc] using h)
    · simp [dropLeading, hc] at h

theorem all_of_all_dropLeading {p : Char → Bool} :
    ∀ {s : Str}, (dropLeading p s).all p = true → s.all p = true
  | [], _ => rfl
  | c :: rest, h => by
    by_cases hc : p c
    · rw [List.all_cons, hc, Bool.true_and]
      exact all_of_all_dropLeading (by simpa [dropLeading, hc] using h)
    · rw [dropLeading_cons_of_neg _ (by simpa using hc)] at h
      exact h

theorem jsTrim_eq_nil_iff {s : Str} : jsTrim s = [] ↔ s.all isJsTrimWs = true := by
  constructor
  · intro h
    rw [jsTrim, List.reverse_eq_nil_iff] at h
    have h2 := all_of_dropLeading_nil h
    rw [List.all_reverse] at h2
    exact all_of_all_dropLeading h2
  · intro h
    rw [jsTrim, dropLeading_eq_nil_of_all h]
    rfl

theorem jsTrim_cons_ws {c : Char} {s : Str} (h : isJsTrimWs c = true) :
    jsTrim (c :: s) = jsTrim s := by
  rw [jsTrim, jsTrim, show c :: s = [c] ++ s from rfl,
    dropLeading_append_of_all s (by simp [h])]

theorem dropLeading_append_right {p : Char → Bool} :
    ∀ {s : Str} (u : Str), dropLeading p s ≠ [] →
      dropLeading p (s ++ u) = dropLeading p s ++ u
  | [], u, h => absurd rfl h
  | c :: rest, u, h => by
    by_cases hc : p c
    · rw [List.cons_append, show dropLeading p (c :: (rest ++ u)) = dropLeading p (rest ++ u)
          from by simp [dropLeading, hc],
        show dropLeading p (c :: rest) = dropLeading p rest from by simp [dropLeading, hc]]
      exact dropLeading_append_right u (by simpa [dropLeading, hc] using h)
    · simp [dropLeading, hc]

theorem jsTrim_append_ws {c : Char} {s : Str} (h : isJsTrimWs c = true) :
    jsTrim (s ++ [c]) = jsTrim s := by
  by_cases hall : s.all isJsTrimWs = true
  · rw [jsTrim_eq_nil_iff.2 hall, jsTrim_eq_nil_iff.2 (by simp [hall, h])]
  · have hne : dropLeading isJsTrimWs s ≠ [] := fun hnil => hall (all_of_dropLeading_nil hnil)
    rw [jsTrim, jsTrim, dropLeading_append_right [c] hne, List.reverse_append]
    simp only [List.reverse_singleton, List.singleton_append]
    rw [show dropLeading isJsTrimWs (c :: (dropLeading isJsTrimWs s).reverse)
        = dropLeading isJsTrimWs (dropLeading isJsTrimWs s).reverse from by
      simp [dropLeading, h]]

theorem jsTrim_eq_self {s : Str}
    (hh : ∀ c, s.head? = some c → isJsTrimWs c = false)
    (hl : ∀ c, s.getLast? = some c → isJsTrimWs c = false) :
    jsTrim s = s := by
  cases s with
  | nil => rfl
  | cons c rest =>
    have h1 : dropLeading isJsTrimWs (c :: rest) = c :: rest :=
      dropLeading_cons_of_neg rest (hh c rfl)
    rw [jsTrim, h1]
    cases hrev : (c :: rest).reverse with
    | nil => simp at hrev
    | cons d rrest =>
      have hd : (c :: rest).getLast? = some d := by
        rw [List.getLast?_eq_head?_reverse, hrev]; rfl
      rw [dropLeading_cons_of_neg rrest (hl d hd), ← hrev, List.reverse_reverse]

/-! ### Occurrence lemmas for `splitAtFirstBy` -/

theorem matchesAt_eq_iff_take :
    ∀ {pat s : Str}, matchesAt (fun p c => p = c) pat s = true ↔ s.take pat.length = pat
  | [], s => by simp [matchesAt]
  | p :: ps, [] => by simp [matchesAt]
  | p :: ps, c :: cs => by
    rw [matchesAt, Bool.and_eq_true, decide_eq_true_eq, List.length_cons, List.take_succ_cons,
      List.cons.injEq, matchesAt_eq_iff_take]
    exact ⟨fun ⟨h1, h2⟩ => ⟨h1.symm, h2⟩, fun ⟨h1, h2⟩ => ⟨h1.symm, h2⟩⟩

theorem matchesAt_eq_self_append (pat u : Str) :
    matchesAt (fun p c => p = c) pat (pat ++ u) = true := by
  rw [matchesAt_eq_iff_take, List.take_append_of_le_length (le_refl _), List.take_length]

theorem splitAtFirstBy_none_pat_ne_nil {f : Char → Char → Bool} {pat s : Str}
    (h : splitAtFirstBy f pat s = none) : pat ≠ [] := by
  intro hpat
  subst hpat
  cases s <;> simp [splitAtFirstBy, matchesAt] at h

theorem matchesAt_extend_false {f : Char → Char → Bool} {c : Char} :
    ∀ {pat t : Str}, (∀ p ∈ pat, f p c = false) → matchesAt f pat t = false →
      matchesAt f pat (t ++ [c]) = false
  | [], t, _, hm => by simp [matchesAt] at hm
  | p :: ps, [], hb, _ => by
    simp only [List.nil_append, matchesAt, Bool.and_eq_false_iff]
    exact Or.inl (hb p (by simp))
  | p :: ps, d :: t, hb, hm => by
    rw [List.cons_append, matchesAt]
    rw [matchesAt, Bool.and_eq_false_iff] at hm
    rcases hm with hm | hm
    · rw [hm, Bool.false_and]
    · rw [matchesAt_extend_false (fun q hq => hb q (by simp [hq])) hm, Bool.and_false]

theorem splitAtFirstBy_none_append_boundary {f : Char → Char → Bool} {c : Char} {pat : Str}
    (hb : ∀ p ∈ pat, f p c = false) :
    ∀ {s : Str}, splitAtFirstBy f pat s = none → splitAtFirstBy f pat (s ++ [c]) = none := by
  intro s
  induction s with
  | nil =>
    intro h
    have hpat := splitAtFirstBy_none_pat_ne_nil h
    have hm : matchesAt f pat [] = false := by
      cases hmat : matchesAt f pat [] with
      | false => rfl
      | true => simp [splitAtFirstBy, hmat] at h
    rw [List.nil_append]
    simp only [splitAtFirstBy, matchesAt_extend_false hb (by simpa using hm), h]
    cases pat with
    | nil => exact absurd rfl hpat
    | cons p ps =>
      simp only [splitAtFirstBy, matchesAt, hb p (by simp), Bool.false_and,
        Bool.false_eq_true, if_false, h]
  | cons d rest ih =>
    intro h
    simp only [splitAtFirstBy] at h
    by_cases hm : matchesAt f pat (d :: rest) = true
    · simp [hm] at h
    · rw [eq_false_of_ne_true hm] at h
      simp only [Bool.false_eq_true, if_false] at h
      have hrest : splitAtFirstBy f pat rest = none := by
        cases hr : splitAtFirstBy f pat rest with
        | none => rfl
        | some pr => rw [hr] at h; cases pr; simp at h
      have hext : matchesAt f pat (d :: (rest ++ [c])) = false := by
        have := @matchesAt_extend_false f c pat (d :: rest) hb (eq_false_of_ne_true hm)
        rwa [List.cons_append] at this
      rw [List.cons_append]
      simp only [splitAtFirstBy, hext, Bool.false_eq_true, if_false, ih hrest]

theorem splitAtFirstBy_none_cons_boundary {f : Char → Char → Bool} {c : Char} {pat s : Str}
    (hb : ∀ p ∈ pat, f p c = false) (h : splitAtFirstBy f pat s = none) :
    splitAtFirstBy f pat (c :: s) = none := by
  have hpat := splitAtFirstBy_none_pat_ne_nil h
  cases pat with
  | nil => exact absurd rfl hpat
  | cons p ps =>
    simp only [splitAtFirstBy, matchesAt, hb p (by simp), Bool.false_and,
      Bool.false_eq_true, if_false, h]

theorem splitAtFirstBy_isSome_of_matches {f : Char → Char → Bool} {pat : Str} :
    ∀ {s t : Str}, t <:+ s → matchesAt f pat t = true →
      (splitAtFirstBy f pat s).isSome = true := by
  intro s
  induction s with
  | nil =>
    intro t hsuf hm
    rw [List.suffix_nil.1 hsuf] at hm
    simp [splitAtFirstBy, hm]
  | cons c rest ih =>
    intro t hsuf hm
    by_cases hfull : matchesAt f pat (c :: rest) = true
    · simp [splitAtFirstBy, hfull]
    · rcases List.suffix_cons_iff.1 hsuf with h | h
      · rw [h] at hm; exact absurd hm hfull
      · have := ih h hm
        simp only [splitAtFirstBy, eq_false_of_ne_true hfull, Bool.false_eq_true, if_false]
        cases hr : splitAtFirstBy f pat rest with
        | none => rw [hr] at this; simp at this
        | some pr => cases pr; simp

theorem occursIn_of_middle (pat a b : Str) : occursIn pat (a ++ (pat ++ b)) = true := by
  rw [occursIn]
  exact splitAtFirstBy_isSome_of_matches (List.suffix_append a (pat ++ b))
    (matchesAt_eq_self_append pat b)

theorem splitAtFirstBy_none_tail {f : Char → Char → Bool} {pat : Str} {d : Char} {s : Str}
    (h : splitAtFirstBy f pat (d :: s) = none) : splitAtFirstBy f pat s = none := by
  simp only [splitAtFirstBy] at h
  by_cases hm : matchesAt f pat (d :: s) = true
  · simp [hm] at h
  · rw [eq_false_of_ne_true hm] at h
    simp only [Bool.false_eq_true, if_false] at h
    cases hr : splitAtFirstBy f pat s with
    | none => rfl
    | some pr => rw [hr] at h; cases pr; simp at h

theorem occursIn_false_iff {pat s : Str} :
    occursIn pat s = false ↔ splitAtFirst pat s = none := by
  cases h : splitAtFirst pat s <;> simp [occursIn, h]

/-- One-step unfolding of `splitAtFirstBy` on a nonempty subject. -/
theorem splitAtFirstBy_cons (f : Char → Char → Bool) (pat : Str) (c : Char) (rest : Str) :
    splitAtFirstBy f pat (c :: rest)
      = if matchesAt f pat (c :: rest) = true then some ([], (c :: rest).drop pat.length)
        else match splitAtFirstBy f pat rest with
             | some (pre, post) => some (c :: pre, post)
             | none => none := rfl

/-- Splitting at the marker pattern: a prefix of the subject equal to the
pattern is found immediately. -/
theorem splitAtFirst_prefix (pat u : Str) : splitAtFirst pat (pat ++ u) = some ([], u) := by
  cases hs : pat ++ u with
  | nil =>
    rcases List.append_eq_nil.1 hs with ⟨h1, h2⟩
    subst h1; subst h2; rfl
  | cons c rest =>
    rw [splitAtFirst, splitAtFirstBy_cons]
    rw [show matchesAt (fun p c => decide (p = c)) pat (c :: rest) = true from
      by rw [← hs]; exact matchesAt_eq_self_append pat u]
    rw [if_pos rfl, ← hs, List.drop_left]

/-- First-occurrence split at a separator: when `pat` does not occur in
`pre`, does not contain the separator character `c`, and is nonempty, the
split of `pre ++ c :: pat ++ post` lands exactly after the separator. -/
theorem splitAtFirst_after_boundary {pat : Str} {c : Char} (hpat : pat ≠ [])
    (hc : c ∉ pat) :
    ∀ {pre : Str} (post : Str), occursIn pat pre = false →
      splitAtFirst pat (pre ++ c :: (pat ++ post)) = some (pre ++ [c], post) := by
  intro pre
  induction pre with
  | nil =>
    intro post _
    rw [List.nil_append, List.nil_append]
    cases pat with
    | nil => exact absurd rfl hpat
    | cons p ps =>
      have hne : decide (p = c) = false := by
        simp only [decide_eq_false_iff_not, ne_eq]
        intro hpc
        exact hc (hpc ▸ List.mem_cons_self p ps)
      rw [splitAtFirst, splitAtFirstBy_cons]
      simp only [matchesAt, hne, Bool.false_and, Bool.false_eq_true, if_false]
      rw [show splitAtFirstBy (fun p c => decide (p = c)) (p :: ps) ((p :: ps) ++ post)
          = some ([], post) from splitAtFirst_prefix (p :: ps) post]
  | cons d pre' ih =>
    intro post hocc
    have htail : occursIn pat pre' = false := by
      rw [occursIn_false_iff] at hocc ⊢
      exact splitAtFirstBy_none_tail hocc
    have hmf : matchesAt (fun p c => decide (p = c)) pat
        ((d :: pre') ++ c :: (pat ++ post)) = false := by
      by_contra hmt
      have hm := matchesAt_eq_iff_take.1 (eq_true_of_ne_false hmt)
      by_cases hlen : pat.length ≤ (d :: pre').length
      · have hmp : matchesAt (fun p c => decide (p = c)) pat (d :: pre') = true := by
          rw [matchesAt_eq_iff_take, ← List.take_append_of_le_length hlen, hm]
        have hs := splitAtFirstBy_isSome_of_matches (List.suffix_refl (d :: pre')) hmp
        rw [occursIn, splitAtFirst] at hocc
        rw [hocc] at hs
        exact Bool.false_ne_true hs
      · push_neg at hlen
        have hcmem : c ∈ pat := by
          rw [← hm, List.take_append_eq_append_take]
          refine List.mem_append_right _ ?_
          obtain ⟨k, hk⟩ : ∃ k, pat.length - (d :: pre').length = k + 1 :=
            ⟨pat.length - (d :: pre').length - 1, by omega⟩
          rw [hk, List.take_succ_cons]
          exact List.mem_cons_self c _
        exact hc hcmem
    rw [List.cons_append, splitAtFirst, splitAtFirstBy_cons]
    rw [show matchesAt (fun p c => decide (p = c)) pat (d :: (pre' ++ c :: (pat ++ post)))
        = false from by rw [← List.cons_append]; exact hmf]
    simp only [Bool.false_eq_true, if_false]
    rw [show splitAtFirstBy (fun p c => decide (p = c)) pat (pre' ++ c :: (pat ++ post))
        = some (pre' ++ [c], post) from ih post htail]
    rfl

/-! ## Claim theorems (first group) -/

/-- Claim C6: for every raw input that is empty or consists only of
whitespace, `parseAiOutput` returns the neutral idle outcome — no
descriptor, no script and no error — never an error. -/
theorem parse_blank_input_is_idle (raw : Str) (h : raw.all isJsTrimWs = true) :
    parseAiOutput raw = .ok ⟨none, none, none⟩ := by
  rw [parseAiOutput, jsTrim_eq_nil_iff.2 h]
  rfl

theorem parse_blank_input_is_idle_witness :
    ([' ', '\t', '\n'].all isJsTrimWs = true) ∧
      parseAiOutput [' ', '\t', '\n'] = .ok ⟨none, none, none⟩ :=
  ⟨by decide, parse_blank_input_is_idle [' ', '\t', '\n'] (by decide)⟩

/-- Claim C7: for every non-blank raw input without the literal
`%%BEGINCODE%%` token, `parseAiOutput` fails with the marker-not-found
message — which names the exact missing token — and yields no descriptor
and no script. -/
theorem parse_missing_marker_fails (raw : Str)
    (h1 : (jsTrim raw).isEmpty = false) (h2 : occursIn beginMarker raw = false) :
    parseAiOutput raw = .ok ⟨none, none, some beginMarkerMsg⟩ ∧
      occursIn beginMarker beginMarkerMsg = true := by
  refine ⟨?_, by rfl⟩
  rw [parseAiOutput, h1, occursIn_false_iff.1 h2]
  rfl

theorem parse_missing_marker_fails_witness :
    ((jsTrim (("hello oracle").data)).isEmpty = false) ∧
      (occursIn beginMarker (("hello oracle").data) = false) ∧
      parseAiOutput (("hello oracle").data) = .ok ⟨none, none, some beginMarkerMsg⟩ :=
  ⟨by decide, by decide,
    (parse_missing_marker_fails (("hello oracle").data) (by decide) (by decide)).1⟩

/-- Claim C8: every labels string splitting into fewer than seven
comma-separated entries makes the label decoder emit the built-in bilingual
default table, whatever the entries contain — never a partially-filled
table. -/
theorem labels_short_fall_back_to_default (ls : Str)
    (h : (jsSplitOnChar ',' ls).length < 7) :
    generateTranslationsObject (some ls) = defaultTranslationsObject := by
  rw [generateTranslationsObject]
  by_cases he : ls.isEmpty
  · rw [he]; rfl
  · rw [eq_false_of_ne_true he]
    simp only [Bool.false_eq_true, if_false]
    have hcond : ¬ labelKeys.length ≤
        ((jsSplitOnChar ',' ls).map (fun p => jsSplitOnChar '/' (jsTrim p))).length := by
      rw [List.length_map]
      have h7 : labelKeys.length = 7 := by decide
      omega
    rw [if_neg hcond]

theorem labels_short_fall_back_to_default_witness :
    ((jsSplitOnChar ',' (("Language/Idioma, Play/Jugar").data)).length < 7) ∧
      generateTranslationsObject (some (("Language/Idioma, Play/Jugar").data))
        = defaultTranslationsObject :=
  ⟨by decide,
    labels_short_fall_back_to_default (("Language/Idioma, Play/Jugar").data) (by decide)⟩

/-- Claim C9: parameter-value coercion is total — the value text goes
through the single-quote repair and a JSON parse whose success is taken
verbatim, and any text whose parse still fails is used as a literal string
value, so no parse fault reaches the caller; in particular the single-quoted
text `'hello'` coerces to the string value `hello`. -/
theorem param_value_coercion_total :
    (∀ (v : Str) (j : Json), jsonParse (singleQuoteRewrite v) = .ok j →
        coerceParamValue v = j) ∧
    (∀ (v : Str) (e : Str), jsonParse (singleQuoteRewrite v) = .error e →
        coerceParamValue v = .jstr v) ∧
    coerceParamValue (("\x27hello\x27").data) = .jstr (("hello").data) := by
  refine ⟨?_, ?_, by rfl⟩
  · intro v j h
    rw [coerceParamValue, h]
  · intro v e h
    rw [coerceParamValue, h]

theorem param_value_coercion_total_witness :
    (jsonParse (singleQuoteRewrite (("42").data)) = .ok (.jnum (("42").data))) ∧
      coerceParamValue (("42").data) = .jnum (("42").data) ∧
      (jsonParse (singleQuoteRewrite (("not json").data))
        = .error (("Unexpected token in JSON").data)) ∧
      coerceParamValue (("not json").data) = .jstr (("not json").data) :=
  ⟨by rfl,
    param_value_coercion_total.1 (("42").data) (.jnum (("42").data)) (by rfl),
    by rfl,
    param_value_coercion_total.2.1 (("not json").data)
      (("Unexpected token in JSON").data) (by rfl)⟩

/-- Claim C5: the example input — a compact descriptor, the begin marker, a
script-tag-wrapped script and the end marker — parses to exactly that
descriptor, and to the script `var x=1;`: truncated at the end marker, the
script-tag wrapper stripped, whitespace trimmed. -/
theorem parse_example_match_game :
    parseAiOutput (("\x7b\"title\":\"Match Game\",\"description\":\"Match pairs.\",\"how_to_play\":[\"Click a card\"]\x7d%%BEGINCODE%%<script>var x=1;</script>%%ENDCODE%%").data)
      = .ok ⟨some (.jobj [(("title").data, .jstr (("Match Game").data)),
                          (("description").data, .jstr (("Match pairs.").data)),
                          (("how_to_play").data, .jarr [.jstr (("Click a card").data)])]),
             some (("var x=1;").data), none⟩ := by rfl

/-- Claim C1 fails on the code: the standalone document with a `rejected`
field is not recognised by the probe (which only accepts `rejection`), so
the generation flow produces the begin-marker descriptor-parse failure and
not the rejection notice the claim promises. -/
theorem rejected_field_not_recognised :
    handleGenerateOutcome (("\x7b\"rejected\": true, \"reason\": \"No audio support\"\x7d").data)
        = .parseFailure (beginMarkerMsg ++
            rawOutputSuffix (("\x7b\"rejected\": true, \"reason\": \"No audio support\"\x7d").data)) ∧
      handleGenerateOutcome (("\x7b\"rejected\": true, \"reason\": \"No audio support\"\x7d").data)
        ≠ .rejectionNotice (("AI Rejection: No audio support").data) :=
  ⟨by rfl, fun h => nomatch h⟩

/-- Claim C1 amended: the probe accepts only a `rejection` boolean field
strictly equal to `true` — that document short-circuits to a rejection
notice carrying its reason, while the `rejected` variant falls through to
the begin-marker descriptor-parse failure. -/
theorem rejection_probe_uses_rejection_field :
    handleGenerateOutcome (("\x7b\"rejection\": true, \"reason\": \"No audio support\"\x7d").data)
        = .rejectionNotice (("AI Rejection: No audio support").data) ∧
      handleGenerateOutcome (("\x7b\"rejected\": true, \"reason\": \"No audio support\"\x7d").data)
        = .parseFailure (beginMarkerMsg ++
            rawOutputSuffix (("\x7b\"rejected\": true, \"reason\": \"No audio support\"\x7d").data)) :=
  ⟨by rfl, by rfl⟩

/-- Claim C2 fails on the code: a preamble whose `how_to_play` is the empty
array passes the required-field validation — `![]` is `false` in JS — so a
descriptor-script pair is produced even though the ordered sequence is not
non-empty. -/
theorem empty_how_to_play_accepted :
    parseAiOutput (("\x7b\"title\":\"T\",\"description\":\"D\",\"how_to_play\":[]\x7d%%BEGINCODE%%x").data)
      = .ok ⟨some (.jobj [(("title").data, .jstr (("T").data)),
                          (("description").data, .jstr (("D").data)),
                          (("how_to_play").data, .jarr [])]),
             some (['x']), none⟩ := by rfl

/-! ## Validation characterisation and split decomposition -/

theorem getMember_ne_null {g : Json} (k : Str) (hg : g ≠ .jnull) :
    getMember g k = .ok (memberOf g k) := by
  cases g with
  | jnull => exact absurd rfl hg
  | jbool b => rfl
  | jnum tok => rfl
  | jstr s => rfl
  | jarr es => rfl
  | jobj ms => rfl

theorem validate_of_ne_null {g : Json} (hg : g ≠ .jnull) :
    validateGameData g =
      .ok (jsTruthy (memberOf g (("title").data)) &&
           (jsTruthy (memberOf g (("description").data)) &&
            (jsTruthy (memberOf g (("how_to_play").data)) &&
             isArrayV (memberOf g (("how_to_play").data))))) := by
  rw [validateGameData, getMember_ne_null _ hg, getMember_ne_null _ hg,
    getMember_ne_null _ hg]
  generalize memberOf g (("title").data) = m1
  generalize memberOf g (("description").data) = m2
  generalize memberOf g (("how_to_play").data) = m3
  cases hb1 : jsTruthy m1 <;> cases hb2 : jsTruthy m2 <;>
    cases hb3 : jsTruthy m3 <;> cases hb4 : isArrayV m3 <;>
    simp [Bind.bind, Except.bind, hb1, hb2, hb3, hb4, pure, Except.pure]

theorem validate_null :
    validateGameData .jnull = .error (nullReadMsg (("title").data)) := rfl

theorem validate_ne_null_of_ok {g : Json} {b : Bool}
    (h : validateGameData g = .ok b) : g ≠ .jnull := by
  intro hg
  rw [hg, validate_null] at h
  exact Except.noConfusion h

/-- Case-sensitive splitting decomposes the subject around the pattern. -/
theorem splitAtFirst_decomp {pat : Str} :
    ∀ {s pre post : Str}, splitAtFirst pat s = some (pre, post) →
      s = pre ++ pat ++ post := by
  intro s
  induction s with
  | nil =>
    intro pre post h
    rw [splitAtFirst, splitAtFirstBy] at h
    by_cases hm : matchesAt (fun p c => decide (p = c)) pat [] = true
    · rw [if_pos hm] at h
      cases pat with
      | nil =>
        simp only [Option.some.injEq, Prod.mk.injEq] at h
        rw [← h.1, ← h.2]; rfl
      | cons p ps => cases hm
    · rw [if_neg hm] at h
      exact Option.noConfusion h
  | cons c rest ih =>
    intro pre post h
    rw [splitAtFirst, splitAtFirstBy_cons] at h
    by_cases hm : matchesAt (fun p c => decide (p = c)) pat (c :: rest) = true
    · rw [if_pos hm] at h
      simp only [Option.some.injEq, Prod.mk.injEq] at h
      have htake := matchesAt_eq_iff_take.1 hm
      rw [← h.1, ← h.2, List.nil_append]
      conv_lhs => rw [← List.take_append_drop pat.length (c :: rest)]
      rw [htake]
    · rw [if_neg hm] at h
      cases hr : splitAtFirstBy (fun p c => decide (p = c)) pat rest with
      | none => rw [hr] at h; exact Option.noConfusion h
      | some pp =>
        obtain ⟨pre', post'⟩ := pp
        rw [hr] at h
        simp only [Option.some.injEq, Prod.mk.injEq] at h
        have hdec : rest = pre' ++ pat ++ post' := ih hr
        rw [← h.1, ← h.2, List.cons_append, List.cons_append, ← hdec]

theorem isEmpty_false_of_ne_nil {s : Str} (h : s ≠ []) : s.isEmpty = false := by
  cases s with
  | nil => exact absurd rfl h
  | cons c rest => rfl

/-- A raw input in which the begin marker was found is not blank. -/
theorem trim_ne_empty_of_marker_found {raw pre post : Str}
    (hsp : splitAtFirst beginMarker raw = some (pre, post)) :
    (jsTrim raw).isEmpty = false := by
  have hraw := splitAtFirst_decomp hsp
  have hmem : '%' ∈ raw := by
    rw [hraw]
    exact List.mem_append_left _ (List.mem_append_right _ (by decide))
  refine isEmpty_false_of_ne_nil (fun hnil => ?_)
  have hall := jsTrim_eq_nil_iff.1 hnil
  rw [List.all_eq_true] at hall
  have := hall '%' hmem
  simp [isJsTrimWs] at this

/-- Claim C2 amended: `parseAiOutput` yields a (descriptor, script) pair
only when the preamble's JSON value has a truthy `title`, a truthy
`description` and a `how_to_play` that is an array — possibly empty, the
code does not require non-emptiness — and every input whose preamble parses
to a non-null value violating this fails as a unit with the
field-enumerating error, producing no descriptor and no script. -/
theorem descriptor_fields_gate_success :
    (∀ (raw : Str) (r : ParseResult) (g : Json),
        parseAiOutput raw = .ok r → r.gameData = some g →
        jsTruthy (memberOf g (("title").data)) = true ∧
        jsTruthy (memberOf g (("description").data)) = true ∧
        jsTruthy (memberOf g (("how_to_play").data)) = true ∧
        isArrayV (memberOf g (("how_to_play").data)) = true ∧
        r.error = none ∧ r.gameScript ≠ none) ∧
    (∀ (raw pre post : Str) (g : Json),
        splitAtFirst beginMarker raw = some (pre, post) →
        jsonParse (jsTrim (stripEndFence (stripJsonFence pre))) = .ok g →
        g ≠ .jnull →
        ¬(jsTruthy (memberOf g (("title").data)) = true ∧
          jsTruthy (memberOf g (("description").data)) = true ∧
          jsTruthy (memberOf g (("how_to_play").data)) = true ∧
          isArrayV (memberOf g (("how_to_play").data)) = true) →
        parseAiOutput raw = .ok ⟨none, none, some missingFieldsMsg⟩) := by
  constructor
  · intro raw r g h hgd
    simp only [parseAiOutput] at h
    split at h
    · cases h; simp at hgd
    · split at h
      · cases h; simp at hgd
      · split at h
        · cases h; simp at hgd
        · rename_i gameData _
          split at h
          · exact Except.noConfusion h
          · cases h; simp at hgd
          · rename_i hval
            cases h
            simp only [Option.some.injEq] at hgd
            subst hgd
            have hne := validate_ne_null_of_ok hval
            rw [validate_of_ne_null hne] at hval
            simp only [Except.ok.injEq, Bool.and_eq_true] at hval
            exact ⟨hval.1, hval.2.1, hval.2.2.1, hval.2.2.2, rfl, by simp⟩
  · intro raw pre post g hsp hjson hne hviol
    have hblank := trim_ne_empty_of_marker_found hsp
    have hval : validateGameData g = .ok false := by
      rw [validate_of_ne_null hne]
      congr 1
      cases hb1 : jsTruthy (memberOf g (("title").data)) <;>
        cases hb2 : jsTruthy (memberOf g (("description").data)) <;>
        cases hb3 : jsTruthy (memberOf g (("how_to_play").data)) <;>
        cases hb4 : isArrayV (memberOf g (("how_to_play").data)) <;>
        first
          | rfl
          | exact absurd ⟨hb1, hb2, hb3, hb4⟩ hviol
    simp only [parseAiOutput, hblank, Bool.false_eq_true, if_false, hsp, hjson, hval]

theorem descriptor_fields_gate_success_witness :
    (jsTruthy (memberOf (.jobj [(("title").data, .jstr (("Match Game").data)),
                            (("description").data, .jstr (("Match pairs.").data)),
                            (("how_to_play").data, .jarr [.jstr (("Click a card").data)])])
        (("title").data)) = true) ∧
    (parseAiOutput (("\x7b\"title\":\"T\"\x7d%%BEGINCODE%%").data)
        = .ok ⟨none, none, some missingFieldsMsg⟩) := by
  constructor
  · exact (descriptor_fields_gate_success.1
      (("\x7b\"title\":\"Match Game\",\"description\":\"Match pairs.\",\"how_to_play\":[\"Click a card\"]\x7d%%BEGINCODE%%x").data)
      ⟨some (.jobj [(("title").data, .jstr (("Match Game").data)),
                    (("description").data, .jstr (("Match pairs.").data)),
                    (("how_to_play").data, .jarr [.jstr (("Click a card").data)])]),
       some (['x']), none⟩
      (.jobj [(("title").data, .jstr (("Match Game").data)),
              (("description").data, .jstr (("Match pairs.").data)),
              (("how_to_play").data, .jarr [.jstr (("Click a card").data)])])
      (by rfl) (by rfl)).1
  · exact descriptor_fields_gate_success.2
      (("\x7b\"title\":\"T\"\x7d%%BEGINCODE%%").data) (("\x7b\"title\":\"T\"\x7d").data) []
      (.jobj [(("title").data, .jstr (("T").data))])
      (by rfl) (by rfl) (fun h => nomatch h) (by decide)

/-! ## The idea-offer splitter characterised -/

theorem getLastD_of_ne_nil {l : List Str} (h : l ≠ []) (d d' : Str) :
    l.getLastD d = l.getLastD d' := by
  cases l with
  | nil => exact absurd rfl h
  | cons a t =>
    rw [List.getLastD_cons, List.getLastD_cons]

theorem renderPartsIdx_single (p : Str) :
    renderPartsIdx [p] = if (jsTrim p).isEmpty then [] else [RenderedPart.mk p none] := by
  rw [renderPartsIdx]
  rw [show List.range [p].length = [0] from rfl, List.filterMap_cons, List.filterMap_nil]
  cases hb : (jsTrim p).isEmpty <;>
    simp [hb, List.getD_cons_zero]

theorem renderPartsIdx_cons (p q : Str) (t : List Str) :
    renderPartsIdx (p :: q :: t)
      = RenderedPart.mk p
          (if !(ideaText p).isEmpty then some (ideaText p) else none) ::
        renderPartsIdx (q :: t) := by
  rw [renderPartsIdx, renderPartsIdx]
  rw [show (p :: q :: t).length = (q :: t).length + 1 from rfl,
    List.range_succ_eq_map, List.filterMap_cons, List.filterMap_map]
  have hhead : decide ((0 : Nat) = (q :: t).length + 1 - 1) = false := by
    simp
  simp only [List.getD_cons_zero, hhead, Bool.and_false, Bool.false_eq_true,
    if_false, Bool.not_false, Bool.true_and]
  congr 1
  refine List.filterMap_congr (fun i _ => ?_)
  simp only [Function.comp_apply, List.getD_cons_succ, Nat.succ_eq_add_one]
  have hdec : decide (i + 1 = (p :: q :: t).length - 1) = decide (i = (q :: t).length - 1) := by
    refine decide_eq_decide.2 ?_
    simp only [List.length_cons]
    omega
  simp only [List.length_cons] at hdec ⊢
  simp only [hdec]

/-- The indexed body rendering, restated structurally: every non-final
segment renders with an offer exactly when its cleaned idea text is
nonempty, and the final segment renders (offerless) exactly when its
trimmed text is nonempty. -/
theorem renderPartsIdx_structural :
    ∀ (parts : List Str), parts ≠ [] →
      renderPartsIdx parts
      = parts.dropLast.map
          (fun p => RenderedPart.mk p
            (if !(ideaText p).isEmpty then some (ideaText p) else none))
        ++ (if (jsTrim (parts.getLastD [])).isEmpty then []
            else [RenderedPart.mk (parts.getLastD []) none]) := by
  intro parts
  induction parts with
  | nil => intro h; exact absurd rfl h
  | cons p rest ih =>
    intro _
    cases rest with
    | nil =>
      rw [renderPartsIdx_single]
      cases hb : (jsTrim p).isEmpty <;> simp [hb]
    | cons q t =>
      rw [renderPartsIdx_cons, ih (by simp)]
      have hdrop : (p :: q :: t).dropLast = p :: (q :: t).dropLast := rfl
      have hlast : (p :: q :: t).getLastD [] = (q :: t).getLastD [] := by
        rw [List.getLastD_cons]
        exact getLastD_of_ne_nil (by simp) p []
      rw [hdrop, hlast, List.map_cons, List.cons_append]

/-- Claim C10: splitting an assistant body on the sentinel yields one idea
offer for each non-final segment whose cleaned content is nonempty (the
offer payload being the stripped trimmed segment); an empty-trimmed trailing
segment is not rendered; and the example body yields exactly one offer with
payload `Try this:` followed by the rendered trailing segment. -/
theorem idea_offer_split :
    (∀ body : Str,
      renderBody body =
        (bodyParts body).dropLast.map
          (fun p => RenderedPart.mk p
            (if !(ideaText p).isEmpty then some (ideaText p) else none))
        ++ (if (jsTrim ((bodyParts body).getLastD [])).isEmpty then []
            else [RenderedPart.mk ((bodyParts body).getLastD []) none])) ∧
    renderBody (("Try this: &&IDEA&&\nMore text.").data)
      = [RenderedPart.mk (("Try this: ").data) (some (("Try this:").data)),
         RenderedPart.mk ('\n' :: ("More text.").data) none] := by
  constructor
  · intro body
    cases body with
    | nil => rfl
    | cons c rest =>
      rw [renderBody]
      rw [show (c :: rest : Str).isEmpty = false from rfl]
      simp only [Bool.false_eq_true, if_false]
      refine renderPartsIdx_structural (bodyParts (c :: rest)) ?_
      rw [bodyParts, jsSplitOnStr]
      cases hs : splitAtFirst ideaMarker (c :: rest) with
      | none => simp [jsSplitOnStrAux, hs]
      | some pr =>
        obtain ⟨pre, post⟩ := pr
        simp [jsSplitOnStrAux, hs]
  · rfl

/-! ## Thrown-failure characterisation and the two failure paths -/

theorem validate_error_char {g : Json} {m : Str}
    (h : validateGameData g = .error m) :
    g = .jnull ∧ m = nullReadMsg (("title").data) := by
  cases hg : g with
  | jnull =>
    rw [hg, validate_null] at h
    simp only [Except.error.injEq] at h
    exact ⟨rfl, h.symm⟩
  | jbool b => rw [hg, validate_of_ne_null (by simp)] at h; exact Except.noConfusion h
  | jnum tok => rw [hg, validate_of_ne_null (by simp)] at h; exact Except.noConfusion h
  | jstr s => rw [hg, validate_of_ne_null (by simp)] at h; exact Except.noConfusion h
  | jarr es => rw [hg, validate_of_ne_null (by simp)] at h; exact Except.noConfusion h
  | jobj ms => rw [hg, validate_of_ne_null (by simp)] at h; exact Except.noConfusion h

/-- The only fault `parseAiOutput` can throw is the `TypeError` of reading
`title` off a `null` preamble. -/
theorem parse_throw_char {raw m : Str}
    (h : parseAiOutput raw = .error m) : m = nullReadMsg (("title").data) := by
  simp only [parseAiOutput] at h
  split at h
  · exact Except.noConfusion h
  · split at h
    · exact Except.noConfusion h
    · split at h
      · exact Except.noConfusion h
      · split at h
        · rename_i hval
          simp only [Except.error.injEq] at h
          exact h ▸ (validate_error_char hval).2
        · exact Except.noConfusion h
        · exact Except.noConfusion h

/-- Claim C4 fails on the code: an imported file whose preamble is the JSON
literal `null` makes the required-field validation throw a `TypeError`,
which nothing on the file-import path catches — an unhandled fault with no
operator-visible failure outcome, raw text included or not. -/
theorem import_null_preamble_uncaught :
    handleFileSelectedOutcome (("null%%BEGINCODE%%x").data)
      = .unhandledFault (nullReadMsg (("title").data)) := by rfl

/-- Claim C4 amended: for malformed input whose preamble is not the literal
`null`, parsing returns a typed failure; the generation path surfaces it
with the explanation and the original raw text appended, while the
file-import path prefixes the explanation with `Import Error: ` and omits
the raw text.  A `null` preamble instead throws the `title` `TypeError`,
which the generation path catches into a generic API-error message and
which the file-selection path does not catch at all. -/
theorem failures_surface_typed :
    (∀ (raw : Str) (r : ParseResult) (e : Str),
        rejectionProbe raw = none → parseAiOutput raw = .ok r → r.error = some e →
        handleGenerateOutcome raw = .parseFailure (e ++ rawOutputSuffix raw) ∧
        occursIn e (e ++ rawOutputSuffix raw) = true ∧
        occursIn raw (e ++ rawOutputSuffix raw) = true ∧
        handleFileSelectedOutcome raw = .importError ((("Import Error: ").data) ++ e)) ∧
    (∀ (raw m : Str),
        rejectionProbe raw = none → parseAiOutput raw = .error m →
        m = nullReadMsg (("title").data) ∧
        handleGenerateOutcome raw = .handledError ((("API Error: ").data) ++ m) ∧
        handleFileSelectedOutcome raw = .unhandledFault m) := by
  constructor
  · intro raw r e hprobe hok herr
    refine ⟨?_, ?_, ?_, ?_⟩
    · simp only [handleGenerateOutcome, hprobe, hok, herr]
    · simpa using occursIn_of_middle e [] (rawOutputSuffix raw)
    · have := occursIn_of_middle raw
        (e ++ ('\n' :: '\n' :: (("Raw AI Output:").data ++ ['\n']))) []
      simpa [rawOutputSuffix, List.append_assoc] using this
    · simp only [handleFileSelectedOutcome, hok, herr]
  · intro raw m hprobe herr2
    have hm := parse_throw_char herr2
    refine ⟨hm, ?_, ?_⟩
    · simp only [handleGenerateOutcome, hprobe, herr2]
      subst hm
      rfl
    · simp only [handleFileSelectedOutcome, herr2]

theorem failures_surface_typed_witness :
    (handleGenerateOutcome (("no marker here").data)
        = .parseFailure (beginMarkerMsg ++ rawOutputSuffix (("no marker here").data))) ∧
    (handleFileSelectedOutcome (("no marker here").data)
        = .importError ((("Import Error: ").data) ++ beginMarkerMsg)) ∧
    (handleGenerateOutcome (("null%%BEGINCODE%%x").data)
        = .handledError ((("API Error: ").data) ++ nullReadMsg (("title").data))) := by
  refine ⟨?_, ?_, ?_⟩
  · exact (failures_surface_typed.1 (("no marker here").data)
      ⟨none, none, some beginMarkerMsg⟩ beginMarkerMsg (by rfl) (by rfl) (by rfl)).1
  · exact (failures_surface_typed.1 (("no marker here").data)
      ⟨none, none, some beginMarkerMsg⟩ beginMarkerMsg (by rfl) (by rfl) (by rfl)).2.2.2
  · exact (failures_surface_typed.2 (("null%%BEGINCODE%%x").data)
      (nullReadMsg (("title").data)) (by rfl) (by rfl)).2.1

/-! ## Number-token lemmas

A canonical number token rescans to itself; these lemmas extend that to a
token followed by any text that cannot continue a number (a *boundary*:
empty, or headed by anything but a digit, `.`, `e`, `E`). -/

/-- Text that cannot extend a number token to its left. -/
def numBoundary : Str → Bool
  | [] => true
  | c :: _ => !(isDigitCh c || c = '.' || c = 'e' || c = 'E')

theorem takeWhile_all {p : Char → Bool} :
    ∀ s : Str, (s.takeWhile p).all p = true
  | [] => rfl
  | c :: rest => by
    by_cases hc : p c
    · simp [List.takeWhile_cons, hc, takeWhile_all rest]
    · simp [List.takeWhile_cons, hc]

theorem takeWhile_eq_self_of_all {p : Char → Bool} :
    ∀ {s : Str}, s.all p = true → s.takeWhile p = s
  | [], _ => rfl
  | c :: rest, h => by
    rw [List.all_cons, Bool.and_eq_true] at h
    simp [List.takeWhile_cons, h.1, takeWhile_eq_self_of_all h.2]

theorem dropWhile_eq_nil_of_all {p : Char → Bool} :
    ∀ {s : Str}, s.all p = true → s.dropWhile p = []
  | [], _ => rfl
  | c :: rest, h => by
    rw [List.all_cons, Bool.and_eq_true] at h
    simp [List.dropWhile_cons, h.1, dropWhile_eq_nil_of_all h.2]

theorem all_of_dropWhile_nil {p : Char → Bool} :
    ∀ {s : Str}, s.dropWhile p = [] → s.all p = true
  | [], _ => rfl
  | c :: rest, h => by
    by_cases hc : p c
    · rw [List.all_cons, hc, Bool.true_and]
      exact all_of_dropWhile_nil (by simpa [List.dropWhile_cons, hc] using h)
    · simp [List.dropWhile_cons, hc] at h

theorem span_eq_parts {p : Char → Bool} (s : Str) :
    s.span p = (s.takeWhile p, s.dropWhile p) := List.span_eq_take_drop ..

/-- A span whose remainder is empty consumed an all-satisfying string. -/
theorem span_all_of_nil_rest {p : Char → Bool} {s a : Str}
    (h : s.span p = (a, [])) : s = a ∧ a.all p = true := by
  rw [span_eq_parts] at h
  simp only [Prod.mk.injEq] at h
  have hall := all_of_dropWhile_nil h.2
  constructor
  · rw [← h.1, takeWhile_eq_self_of_all hall]
  · rw [← h.1]
    exact takeWhile_all s

/-- Spanning an all-satisfying string followed by a non-satisfying head
stops exactly at the boundary. -/
theorem span_append_boundary {p : Char → Bool} {a rest : Str}
    (h1 : a.all p = true) (h2 : ∀ c t, rest = c :: t → p c = false) :
    (a ++ rest).span p = (a, rest) := by
  rw [span_eq_parts]
  have hrtw : rest.takeWhile p = [] := by
    cases rest with
    | nil => rfl
    | cons c t => simp [List.takeWhile_cons, h2 c t rfl]
  have hrdw : rest.dropWhile p = rest := by
    cases rest with
    | nil => rfl
    | cons c t => simp [List.dropWhile_cons, h2 c t rfl]
  induction a with
  | nil => simp [hrtw, hrdw]
  | cons c a' iha =>
    rw [List.all_cons, Bool.and_eq_true] at h1
    have := iha h1.2
    simp only [Prod.mk.injEq] at this
    simp [List.takeWhile_cons, List.dropWhile_cons, h1.1, this.1, this.2]

theorem numBoundary_head_not_digit {rest : Str} (hb : numBoundary rest = true) :
    ∀ c t, rest = c :: t → isDigitCh c = false := by
  intro c t hr
  subst hr
  simp only [numBoundary, Bool.not_eq_true', Bool.or_eq_false_iff,
    decide_eq_false_iff_not] at hb
  exact hb.1.1.1

theorem dropWhile_head_not {p : Char → Bool} :
    ∀ {s : Str} {c : Char} {t : Str}, s.dropWhile p = c :: t → p c = false := by
  intro s
  induction s with
  | nil => intro c t h; exact absurd h (by simp)
  | cons d rest ih =>
    intro c t h
    by_cases hd : p d
    · exact ih (by simpa [List.dropWhile_cons, hd] using h)
    · rw [List.dropWhile_cons, if_neg (by simpa using hd)] at h
      cases h
      simpa using hd

/-- A span decomposes its subject: an all-satisfying prefix and a remainder
that is empty or headed by a non-satisfying character. -/
theorem span_decomp {p : Char → Bool} {s a b : Str} (h : s.span p = (a, b)) :
    s = a ++ b ∧ a.all p = true ∧ (∀ c t, b = c :: t → p c = false) := by
  rw [span_eq_parts] at h
  simp only [Prod.mk.injEq] at h
  refine ⟨?_, ?_, ?_⟩
  · rw [← h.1, ← h.2, List.takeWhile_append_dropWhile]
  · rw [← h.1]; exact takeWhile_all s
  · intro c t hb
    exact dropWhile_head_not (show s.dropWhile p = c :: t from by rw [h.2, hb])

theorem scanExpDigits_ext {tokSoFar : Str} {e : Char} {sgn r1 tok rest : Str}
    (h : scanExpDigits tokSoFar e sgn r1 = some (tok, []))
    (hb : numBoundary rest = true) :
    scanExpDigits tokSoFar e sgn (r1 ++ rest) = some (tok, rest) := by
  rw [scanExpDigits] at h
  rcases hs : r1.span isDigitCh with ⟨ed, r2⟩
  simp only [hs] at h
  by_cases hed : ed = []
  · simp [hed] at h
  · rw [if_neg hed] at h
    simp only [Option.some.injEq, Prod.mk.injEq] at h
    obtain ⟨hde, hall, _⟩ := span_decomp hs
    rw [h.2, List.append_nil] at hde
    have hgoal := span_append_boundary hall (numBoundary_head_not_digit hb)
    rw [scanExpDigits, hde]
    simp only [hgoal, if_neg hed]
    rw [h.1]

theorem scanExpTail_ext {tokSoFar : Str} {e : Char} {r tok rest : Str}
    (h : scanExpTail tokSoFar e r = some (tok, []))
    (hb : numBoundary rest = true) :
    scanExpTail tokSoFar e (r ++ rest) = some (tok, rest) := by
  cases r with
  | nil =>
    rw [scanExpTail] at h
    simp only [List.head?_nil, List.tail_nil] at h
    rw [if_neg (by simp), if_neg (by simp)] at h
    rw [scanExpDigits] at h
    simp at h
  | cons c rr =>
    rw [scanExpTail] at h
    rw [List.cons_append, scanExpTail]
    simp only [List.head?_cons, List.tail_cons] at h ⊢
    by_cases hp : c = '+'
    · subst hp
      rw [if_pos rfl] at h ⊢
      exact scanExpDigits_ext h hb
    · rw [if_neg (by simpa using hp)] at h ⊢
      by_cases hm : c = '-'
      · subst hm
        rw [if_pos rfl] at h ⊢
        exact scanExpDigits_ext h hb
      · rw [if_neg (by simpa using hm)] at h ⊢
        exact @scanExpDigits_ext _ _ _ (c :: rr) _ _ h hb

theorem numBoundary_not_head {rest : Str} (hb : numBoundary rest = true) (c : Char)
    (hc : isDigitCh c = true ∨ c = '.' ∨ c = 'e' ∨ c = 'E') :
    rest.head? ≠ some c := by
  intro hh
  cases rest with
  | nil => exact Option.noConfusion hh
  | cons d t =>
    simp only [List.head?_cons, Option.some.injEq] at hh
    subst hh
    simp only [numBoundary, Bool.not_eq_true', Bool.or_eq_false_iff,
      decide_eq_false_iff_not] at hb
    rcases hc with h | h | h | h
    · rw [hb.1.1.1] at h; exact Bool.noConfusion h
    · exact hb.1.1.2 h
    · exact hb.1.2 h
    · exact hb.2 h

theorem scanExpPart_ext {tokSoFar : Str} {s tok rest : Str}
    (h : scanExpPart tokSoFar s = some (tok, []))
    (hb : numBoundary rest = true) :
    scanExpPart tokSoFar (s ++ rest) = some (tok, rest) := by
  cases s with
  | nil =>
    rw [scanExpPart] at h
    simp only [List.head?_nil] at h
    rw [if_neg (by simp), if_neg (by simp)] at h
    simp only [Option.some.injEq, Prod.mk.injEq] at h
    rw [List.nil_append, scanExpPart,
      if_neg (numBoundary_not_head hb 'e' (by simp)),
      if_neg (numBoundary_not_head hb 'E' (by simp)), h.1]
  | cons c ss =>
    rw [scanExpPart] at h
    rw [List.cons_append, scanExpPart]
    simp only [List.head?_cons, List.tail_cons] at h ⊢
    by_cases he : c = 'e'
    · subst he
      rw [if_pos rfl] at h ⊢
      exact scanExpTail_ext h hb
    · rw [if_neg (by simpa using he)] at h ⊢
      by_cases hE : c = 'E'
      · subst hE
        rw [if_pos rfl] at h ⊢
        exact scanExpTail_ext h hb
      · rw [if_neg (by simpa using hE)] at h ⊢
        simp only [Option.some.injEq, Prod.mk.injEq] at h
        exact absurd h.2 (by simp)

theorem scanFrac_ext {tokSoFar : Str} {s2 tok rest : Str}
    (h : scanFrac tokSoFar s2 = some (tok, []))
    (hb : numBoundary rest = true) :
    scanFrac tokSoFar (s2 ++ rest) = some (tok, rest) := by
  cases s2 with
  | nil =>
    rw [scanFrac] at h
    simp only [List.head?_nil] at h
    rw [if_neg (by simp)] at h
    rw [List.nil_append, scanFrac, if_neg (numBoundary_not_head hb '.' (by simp))]
    exact @scanExpPart_ext _ [] _ _ h hb
  | cons c ss =>
    rw [scanFrac] at h
    rw [List.cons_append, scanFrac]
    simp only [List.head?_cons, List.tail_cons] at h ⊢
    by_cases hd : c = '.'
    · subst hd
      rw [if_pos rfl] at h ⊢
      rcases hs : ss.span isDigitCh with ⟨fd, s3⟩
      simp only [hs] at h
      by_cases hfd : fd = []
      · simp [hfd] at h
      · rw [if_neg hfd] at h
        obtain ⟨hde, hall, hdh⟩ := span_decomp hs
        have hbnd : ∀ c t, s3 ++ rest = c :: t → isDigitCh c = false := by
          intro c t hct
          cases s3 with
          | nil =>
            rw [List.nil_append] at hct
            exact numBoundary_head_not_digit hb c t hct
          | cons d dt =>
            rw [List.cons_append] at hct
            cases hct
            exact hdh _ _ rfl
        rw [hde, List.append_assoc, span_append_boundary hall hbnd, if_neg hfd]
        exact scanExpPart_ext h hb
    · rw [if_neg (by simpa using hd)] at h ⊢
      exact @scanExpPart_ext _ (c :: ss) _ _ h hb

theorem scanMantissa_ext {sign s1 tok rest : Str}
    (h : scanMantissa sign s1 = some (tok, []))
    (hb : numBoundary rest = true) :
    scanMantissa sign (s1 ++ rest) = some (tok, rest) := by
  rw [scanMantissa] at h
  rcases hs : s1.span isDigitCh with ⟨ip, s2⟩
  simp only [hs] at h
  split at h
  · exact absurd h (by simp)
  · split at h
    · exact absurd h (by simp)
    · rename_i hip hz
      obtain ⟨hde, hall, hdh⟩ := span_decomp hs
      have hbnd : ∀ c t, s2 ++ rest = c :: t → isDigitCh c = false := by
        intro c t hct
        cases s2 with
        | nil =>
          rw [List.nil_append] at hct
          exact numBoundary_head_not_digit hb c t hct
        | cons d dt =>
          rw [List.cons_append] at hct
          cases hct
          exact hdh _ _ rfl
      have hgoal := span_append_boundary hall hbnd
      rw [scanMantissa, hde, List.append_assoc]
      simp only [hgoal, if_neg hip, if_neg hz]
      exact scanFrac_ext h hb

/-- The number-token extension: a canonical token followed by boundary text
rescans to itself with that text as the remainder. -/
theorem scanNumber_ext {tok rest : Str}
    (h : scanNumber tok = some (tok, []))
    (hb : numBoundary rest = true) :
    scanNumber (tok ++ rest) = some (tok, rest) := by
  cases tok with
  | nil =>
    rw [scanNumber] at h
    simp only [List.head?_nil] at h
    rw [if_neg (by simp)] at h
    rw [scanMantissa] at h
    simp at h
  | cons c tt =>
    rw [scanNumber] at h
    rw [List.cons_append, scanNumber]
    simp only [List.head?_cons, List.tail_cons] at h ⊢
    by_cases hm : c = '-'
    · subst hm
      rw [if_pos rfl] at h ⊢
      exact scanMantissa_ext h hb
    · rw [if_neg (by simpa using hm)] at h ⊢
      exact @scanMantissa_ext _ (c :: tt) _ _ h hb

/-- A canonical token is nonempty and starts with a minus sign or digit. -/
theorem scanNumber_head {tok : Str} (h : scanNumber tok = some (tok, [])) :
    ∃ c t, tok = c :: t ∧ (c = '-' ∨ isDigitCh c = true) := by
  cases tok with
  | nil =>
    rw [scanNumber] at h
    simp only [List.head?_nil] at h
    rw [if_neg (by simp)] at h
    rw [scanMantissa] at h
    simp at h
  | cons c tt =>
    refine ⟨c, tt, rfl, ?_⟩
    by_cases hm : c = '-'
    · exact Or.inl hm
    · right
      rw [scanNumber] at h
      simp only [List.head?_cons] at h
      rw [if_neg (by simpa using hm), scanMantissa] at h
      rcases hs : (c :: tt).span isDigitCh with ⟨ip, s2⟩
      simp only [hs] at h
      by_cases hip : ip = []
      · simp [hip] at h
      · obtain ⟨hde, hall, _⟩ := span_decomp hs
        clear h
        cases ip with
        | nil => exact absurd rfl hip
        | cons d dt =>
          rw [List.cons_append] at hde
          cases hde
          rw [List.all_cons, Bool.and_eq_true] at hall
          exact hall.1

/-! ## String-escape lemmas: parsing a quoted, escaped string recovers it -/

theorem hexDigitVal_toHexCh {k : Nat} (h : k < 16) : hexDigitVal (toHexCh k) = some k := by
  interval_cases k <;> rfl

theorem parseStringBody_escChar (c : Char) (z : Str) :
    parseStringBody (escChar c ++ z) = consDecoded c (parseStringBody z) := by
  rw [escChar]
  by_cases h1 : c = '"'
  · subst h1; rw [if_pos rfl]; rfl
  · rw [if_neg h1]
    by_cases h2 : c = '\\'
    · subst h2; rw [if_pos rfl]; rfl
    · rw [if_neg h2]
      by_cases h3 : c = '\n'
      · subst h3; rw [if_pos rfl]; rfl
      · rw [if_neg h3]
        by_cases h4 : c = '\r'
        · subst h4; rw [if_pos rfl]; rfl
        · rw [if_neg h4]
          by_cases h5 : c = '\t'
          · subst h5; rw [if_pos rfl]; rfl
          · rw [if_neg h5]
            by_cases h6 : c = Char.ofNat 0x8
            · subst h6; rw [if_pos rfl]; rfl
            · rw [if_neg h6]
              by_cases h7 : c = Char.ofNat 0xC
              · subst h7; rw [if_pos rfl]; rfl
              · rw [if_neg h7]
                by_cases h8 : c.toNat < 0x20
                · rw [if_pos h8]
                  rw [show ('\\' :: 'u' :: '0' :: '0' ::
                      toHexCh (c.toNat / 16) :: toHexCh (c.toNat % 16) :: []) ++ z
                    = '\\' :: 'u' :: '0' :: '0' ::
                      toHexCh (c.toNat / 16) :: toHexCh (c.toNat % 16) :: z from rfl]
                  rw [parseStringBody]
                  have hq : hexQuad '0' '0' (toHexCh (c.toNat / 16)) (toHexCh (c.toNat % 16))
                      = some c.toNat := by
                    rw [hexQuad]
                    rw [show hexDigitVal '0' = some 0 from rfl]
                    rw [hexDigitVal_toHexCh (by omega), hexDigitVal_toHexCh (by omega)]
                    show some (((0 * 16 + 0) * 16 + c.toNat / 16) * 16 + c.toNat % 16)
                      = some c.toNat
                    congr 1
                    omega
                  simp only [hq]
                  have hns1 : (decide (55296 ≤ c.toNat) && decide (c.toNat ≤ 56319)) = false := by
                    simp only [Bool.and_eq_false_iff, decide_eq_false_iff_not]
                    left; omega
                  have hns2 : (decide (56320 ≤ c.toNat) && decide (c.toNat ≤ 57343)) = false := by
                    simp only [Bool.and_eq_false_iff, decide_eq_false_iff_not]
                    left; omega
                  simp only [hns1, hns2, Bool.false_eq_true, if_false, Char.ofNat_toNat]
                · rw [if_neg h8]
                  rw [List.singleton_append, parseStringBody.eq_def]
                  split
                  · rename_i heq; exact absurd heq (by simp)
                  · rename_i heq
                    rw [List.cons.injEq] at heq
                    exact absurd heq.1 h1
                  · rename_i heq
                    rw [List.cons.injEq] at heq
                    exact absurd heq.1 h2
                  · rename_i heq
                    rw [List.cons.injEq] at heq
                    exact absurd heq.1 h2
                  · rename_i heq
                    rw [List.cons.injEq] at heq
                    exact absurd heq.1 h2
                  · rename_i heq
                    rw [List.cons.injEq] at heq
                    exact absurd heq.1 h2
                  · rename_i heq
                    rw [List.cons.injEq] at heq
                    exact absurd heq.1 h2
                  · rename_i heq
                    rw [List.cons.injEq] at heq
                    exact absurd heq.1 h2
                  · rename_i heq
                    rw [List.cons.injEq] at heq
                    exact absurd heq.1 h2
                  · rename_i heq
                    rw [List.cons.injEq] at heq
                    exact absurd heq.1 h2
                  · rename_i heq
                    rw [List.cons.injEq] at heq
                    exact absurd heq.1 h2
                  · rename_i heq
                    rw [List.cons.injEq] at heq
                    exact absurd heq.1 h2
                  · rename_i heq
                    rw [List.cons.injEq] at heq
                    obtain ⟨e1, e2⟩ := heq
                    subst e1
                    subst e2
                    rw [if_neg h8]

theorem parseStringBody_quoted :
    ∀ (s : Str) (rest : Str),
      parseStringBody (s.flatMap escChar ++ '"' :: rest) = some (s, rest)
  | [], rest => rfl
  | c :: t, rest => by
    rw [List.flatMap_cons, List.append_assoc, parseStringBody_escChar,
      parseStringBody_quoted t rest]
    rfl

/-! ## Parse-of-print round trip: printer shape lemmas -/

theorem jsize_pos : ∀ j : Json, 1 ≤ jsize j := by
  intro j
  cases j <;> simp [jsize]

theorem jsizeL_pos : ∀ es : List Json, 1 ≤ jsizeL es := by
  intro es
  cases es <;> simp [jsizeL] <;> try omega

theorem jsizeF_pos : ∀ ms : List (Str × Json), 1 ≤ jsizeF ms := by
  intro ms
  cases ms with
  | nil => simp [jsizeF]
  | cons m t => cases m; simp [jsizeF]; omega

theorem strfItems_eq (ind' : Str) :
    ∀ (e : Json) (t : List Json),
      strfItems ind' (e :: t) = ind' ++ (strfVal ind' e ++ itemsSep ind' t) := by
  intro e t
  induction t generalizing e with
  | nil => simp [strfItems, itemsSep]
  | cons g t2 ih =>
    rw [strfItems, ih g, itemsSep]
    · simp [List.append_assoc]
    · simp

theorem strfFields_eq (ind' : Str) :
    ∀ (k : Str) (v : Json) (t : List (Str × Json)),
      strfFields ind' ((k, v) :: t)
        = ind' ++ (quoteStr k ++ ':' :: ' ' :: (strfVal ind' v ++ fieldsSep ind' t)) := by
  intro k v t
  induction t generalizing k v with
  | nil => simp [strfFields, fieldsSep]
  | cons m t2 ih =>
    cases m with
    | mk k2 v2 =>
      rw [strfFields, ih k2 v2, fieldsSep]
      · simp [List.append_assoc]
      · simp

theorem isJsonWs_of_digit_false {c : Char} (h : isDigitCh c = true) : isJsonWs c = false := by
  cases hw : isJsonWs c with
  | false => rfl
  | true =>
    exfalso
    rw [isJsonWs] at hw
    simp only [Bool.or_eq_true, decide_eq_true_eq] at hw
    rcases hw with ((hc | hc) | hc) | hc <;> subst hc <;> exact absurd h (by decide)

theorem digit_ne_rbrack {c : Char} (h : isDigitCh c = true) : c ≠ ']' := by
  intro hc
  subst hc
  exact absurd h (by decide)

theorem digit_ne_rbrace {c : Char} (h : isDigitCh c = true) : c ≠ '}' := by
  intro hc
  subst hc
  exact absurd h (by decide)

/-- The pretty-printed text of a canonical value starts with a character that
is not JSON whitespace nor a closing bracket. -/
theorem strfVal_head (ind : Str) (j : Json) (hc : canonicalJson j = true) :
    ∃ c t, strfVal ind j = c :: t ∧ isJsonWs c = false ∧ c ≠ ']' ∧ c ≠ '}' := by
  cases j with
  | jnull => exact ⟨'n', ("ull").data, rfl, by decide, by decide, by decide⟩
  | jbool b =>
    cases b with
    | true => exact ⟨'t', ("rue").data, rfl, by decide, by decide, by decide⟩
    | false => exact ⟨'f', ("alse").data, rfl, by decide, by decide, by decide⟩
  | jnum tok =>
    rw [canonicalJson] at hc
    obtain ⟨c, t, htok, hh⟩ := scanNumber_head (of_decide_eq_true hc)
    refine ⟨c, t, by rw [strfVal, htok], ?_, ?_, ?_⟩
    · rcases hh with h | h
      · subst h; decide
      · exact isJsonWs_of_digit_false h
    · rcases hh with h | h
      · subst h; decide
      · exact digit_ne_rbrack h
    · rcases hh with h | h
      · subst h; decide
      · exact digit_ne_rbrace h
  | jstr s =>
    exact ⟨'"', s.flatMap escChar ++ ['"'], rfl, by decide, by decide, by decide⟩
  | jarr es =>
    cases es with
    | nil => exact ⟨'[', [']'], rfl, by decide, by decide, by decide⟩
    | cons e t =>
      exact ⟨'[', '\n' :: (strfItems (ind ++ indentGap) (e :: t) ++ '\n' :: (ind ++ [']'])),
        rfl, by decide, by decide, by decide⟩
  | jobj ms =>
    cases ms with
    | nil => exact ⟨'{', ['}'], rfl, by decide, by decide, by decide⟩
    | cons m t =>
      exact ⟨'{', '\n' :: (strfFields (ind ++ indentGap) (m :: t) ++ '\n' :: (ind ++ ['}'])),
        rfl, by decide, by decide, by decide⟩

/-- Leading-whitespace removal leaves printed canonical text alone. -/
theorem dropLeading_strf {ind : Str} {j : Json} (hc : canonicalJson j = true) (q : Str) :
    dropLeading isJsonWs (strfVal ind j ++ q) = strfVal ind j ++ q := by
  obtain ⟨c, t, hj, hws, _, _⟩ := strfVal_head ind j hc
  rw [hj, List.cons_append, dropLeading_cons_of_neg _ hws]

/-! ### Object reconstruction under distinct keys -/

theorem insertField_of_absent {k : Str} {v : Json} :
    ∀ {acc : List (Str × Json)}, acc.all (fun q => decide (q.1 ≠ k)) = true →
      insertField k v acc = acc ++ [(k, v)]
  | [], _ => rfl
  | (k', v') :: t, h => by
    rw [List.all_cons, Bool.and_eq_true] at h
    have hne : ¬(k' = k) := by simpa using h.1
    rw [insertField, if_neg hne, insertField_of_absent h.2]
    rfl

theorem buildFieldsAux_disjoint :
    ∀ (ms acc : List (Str × Json)), keysNodup ms = true →
      (∀ p ∈ ms, acc.all (fun q => decide (q.1 ≠ p.1)) = true) →
      buildFieldsAux acc ms = acc ++ ms
  | [], acc, _, _ => by rw [buildFieldsAux, List.append_nil]
  | (k, v) :: t, acc, hnd, hdisj => by
    rw [keysNodup, Bool.and_eq_true] at hnd
    rw [buildFieldsAux, insertField_of_absent (hdisj (k, v) (List.mem_cons_self _ _))]
    rw [buildFieldsAux_disjoint t (acc ++ [(k, v)]) hnd.2 ?_]
    · rw [List.append_assoc]
      rfl
    · intro p hp
      rw [List.all_append, Bool.and_eq_true]
      refine ⟨hdisj p (List.mem_cons_of_mem _ hp), ?_⟩
      have hk : decide (p.1 ≠ k) = true := by
        have := List.all_eq_true.1 hnd.1 p hp
        simpa using this
      simp only [List.all_cons, List.all_nil, Bool.and_true]
      simp only [decide_eq_true_eq] at hk ⊢
      exact fun hkp => hk hkp.symm

theorem buildFields_of_nodup {ms : List (Str × Json)} (h : keysNodup ms = true) :
    buildFields ms = ms := by
  rw [buildFields, buildFieldsAux_disjoint ms [] h (fun p _ => rfl)]
  rfl

/-! ### One-step evaluation of `parseVal` on each input shape -/

theorem parseVal_ws {F : Nat} {ws : Str} (s : Str) (hws : ws.all isJsonWs = true) :
    parseVal (F + 1) (ws ++ s) = parseVal (F + 1) s := by
  conv_lhs => rw [parseVal]
  conv_rhs => rw [parseVal]
  rw [dropLeading_append_of_all s hws]

theorem parseVal_null (F : Nat) (r : Str) :
    parseVal (F + 1) ('n' :: 'u' :: 'l' :: 'l' :: r) = .ok (.jnull, r) := rfl

theorem parseVal_true (F : Nat) (r : Str) :
    parseVal (F + 1) ('t' :: 'r' :: 'u' :: 'e' :: r) = .ok (.jbool true, r) := rfl

theorem parseVal_false (F : Nat) (r : Str) :
    parseVal (F + 1) ('f' :: 'a' :: 'l' :: 's' :: 'e' :: r) = .ok (.jbool false, r) := rfl

theorem parseVal_quote (F : Nat) (Y : Str) :
    parseVal (F + 1) ('"' :: Y)
      = match parseStringBody Y with
        | some (str, r1) => .ok (.jstr str, r1)
        | none => .error (("Bad string in JSON").data) := rfl

theorem parseVal_arr_nil (F : Nat) (r : Str) :
    parseVal (F + 1) ('[' :: ']' :: r) = .ok (.jarr [], r) := rfl

theorem parseVal_obj_nil (F : Nat) (r : Str) :
    parseVal (F + 1) ('{' :: '}' :: r) = .ok (.jobj [], r) := rfl

theorem parseVal_lbrack (F : Nat) (Y : Str) :
    parseVal (F + 1) ('[' :: Y)
      = match dropLeading isJsonWs Y with
        | ']' :: r1 => .ok (.jarr [], r1)
        | r1 =>
          match parseArrayTail (parseVal F) F r1 with
          | .ok (es, r2) => .ok (.jarr es, r2)
          | .error e => .error e := rfl

theorem parseVal_lbrace (F : Nat) (Y : Str) :
    parseVal (F + 1) ('\x7b' :: Y)
      = match dropLeading isJsonWs Y with
        | '\x7d' :: r1 => .ok (.jobj [], r1)
        | r1 =>
          match parseObjectTail (parseVal F) F r1 with
          | .ok (ms, r2) => .ok (.jobj (buildFields ms), r2)
          | .error e => .error e := rfl

theorem parseVal_num (F : Nat) {c : Char} {Y tok r1 : Str}
    (hws : isJsonWs c = false) (hn : c = '-' ∨ isDigitCh c = true)
    (hscan : scanNumber (c :: Y) = some (tok, r1)) :
    parseVal (F + 1) (c :: Y) = .ok (.jnum tok, r1) := by
  rw [parseVal, dropLeading_cons_of_neg Y hws]
  split
  · rename_i heq
    rw [List.cons.injEq] at heq
    rcases hn with h | h
    · rw [h] at heq; exact absurd heq.1 (by decide)
    · rw [heq.1] at h; exact absurd h (by decide)
  · rename_i heq
    rw [List.cons.injEq] at heq
    rcases hn with h | h
    · rw [h] at heq; exact absurd heq.1 (by decide)
    · rw [heq.1] at h; exact absurd h (by decide)
  · rename_i heq
    rw [List.cons.injEq] at heq
    rcases hn with h | h
    · rw [h] at heq; exact absurd heq.1 (by decide)
    · rw [heq.1] at h; exact absurd h (by decide)
  · rename_i heq
    rw [List.cons.injEq] at heq
    rcases hn with h | h
    · rw [h] at heq; exact absurd heq.1 (by decide)
    · rw [heq.1] at h; exact absurd h (by decide)
  · rename_i heq
    rw [List.cons.injEq] at heq
    rcases hn with h | h
    · rw [h] at heq; exact absurd heq.1 (by decide)
    · rw [heq.1] at h; exact absurd h (by decide)
  · rename_i heq
    rw [List.cons.injEq] at heq
    rcases hn with h | h
    · rw [h] at heq; exact absurd heq.1 (by decide)
    · rw [heq.1] at h; exact absurd h (by decide)
  · rename_i heq
    rw [hscan]

theorem parseObjectTail_ws (pv : Str → Except Str (Json × Str)) {f' : Nat} {ws : Str}
    (s : Str) (hws : ws.all isJsonWs = true) :
    parseObjectTail pv (f' + 1) (ws ++ s) = parseObjectTail pv (f' + 1) s := by
  conv_lhs => rw [parseObjectTail]
  conv_rhs => rw [parseObjectTail]
  rw [dropLeading_append_of_all s hws]

theorem parseObjectTail_quote (pv : Str → Except Str (Json × Str)) (f' : Nat) (Y : Str) :
    parseObjectTail pv (f' + 1) ('"' :: Y)
      = match parseStringBody Y with
        | none => .error (("Bad string in JSON object key").data)
        | some (k, r1) =>
          match dropLeading isJsonWs r1 with
          | ':' :: r2 => do
            let (v, r3) ← pv r2
            match dropLeading isJsonWs r3 with
            | ',' :: r4 => do
              let (ms, r5) ← parseObjectTail pv f' r4
              pure ((k, v) :: ms, r5)
            | '\x7d' :: r4 => pure ([(k, v)], r4)
            | _ => .error (("Expected comma or right brace in JSON object").data)
          | _ => .error (("Expected colon in JSON object").data) := rfl

theorem parseObjectTail_step (pv : Str → Except Str (Json × Str)) (f' : Nat)
    (k : Str) (v : Json) (X r3 : Str)
    (hpv : pv (' ' :: X) = .ok (v, r3)) :
    parseObjectTail pv (f' + 1) ('"' :: (k.flatMap escChar ++ '"' :: (':' :: ' ' :: X)))
      = match dropLeading isJsonWs r3 with
        | ',' :: r4 => do
          let (ms, r5) ← parseObjectTail pv f' r4
          pure ((k, v) :: ms, r5)
        | '\x7d' :: r4 => pure ([(k, v)], r4)
        | _ => .error (("Expected comma or right brace in JSON object").data) := by
  rw [parseObjectTail_quote]
  simp only [parseStringBody_quoted]
  rw [show dropLeading isJsonWs (':' :: ' ' :: X) = ':' :: ' ' :: X from
    dropLeading_cons_of_neg _ (by decide)]
  simp only [hpv, Bind.bind, Except.bind]

/-! ### The parse-of-print induction -/

theorem rt_main (N : Nat) :
    (∀ (j : Json) (ind ws rest : Str) (fuel : Nat), jsize j ≤ N →
        canonicalJson j = true → ind.all isJsonWs = true → ws.all isJsonWs = true →
        numBoundary rest = true →
        ws.length + (strfVal ind j).length + rest.length < fuel →
        parseVal fuel (ws ++ (strfVal ind j ++ rest)) = .ok (j, rest))
    ∧ (∀ (e : Json) (t : List Json) (ind ind' ws rest : Str) (g f : Nat),
        jsize e + jsizeL t ≤ N →
        canonicalJson e = true → canonItems t = true →
        ind.all isJsonWs = true → ind'.all isJsonWs = true → ws.all isJsonWs = true →
        ws.length + (strfVal ind' e).length + (itemsSep ind' t).length
          + ind.length + rest.length + 2 < g →
        ws.length + (strfVal ind' e).length + (itemsSep ind' t).length
          + ind.length + rest.length + 2 < f →
        parseArrayTail (parseVal g) f
            (ws ++ (strfVal ind' e ++ (itemsSep ind' t ++ ('\n' :: (ind ++ (']' :: rest))))))
          = .ok (e :: t, rest))
    ∧ (∀ (k : Str) (v : Json) (t : List (Str × Json)) (ind ind' ws rest : Str) (g f : Nat),
        jsize v + jsizeF t ≤ N →
        canonicalJson v = true → canonFieldVals t = true →
        ind.all isJsonWs = true → ind'.all isJsonWs = true → ws.all isJsonWs = true →
        ws.length + (quoteStr k).length + (strfVal ind' v).length
          + (fieldsSep ind' t).length + ind.length + rest.length + 4 < g →
        ws.length + (quoteStr k).length + (strfVal ind' v).length
          + (fieldsSep ind' t).length + ind.length + rest.length + 4 < f →
        parseObjectTail (parseVal g) f
            (ws ++ (quoteStr k ++ (':' :: ' ' :: (strfVal ind' v
              ++ (fieldsSep ind' t ++ ('\n' :: (ind ++ ('\x7d' :: rest))))))))
          = .ok ((k, v) :: t, rest)) := by
  induction N with
  | zero =>
    refine ⟨?_, ?_, ?_⟩
    · intro j ind ws rest fuel hsz
      exact absurd hsz (by have := jsize_pos j; omega)
    · intro e t ind ind' ws rest g f hsz
      exact absurd hsz (by have h1 := jsize_pos e; have h2 := jsizeL_pos t; omega)
    · intro k v t ind ind' ws rest g f hsz
      exact absurd hsz (by have h1 := jsize_pos v; have h2 := jsizeF_pos t; omega)
  | succ N ih =>
    obtain ⟨ihv, ihi, ihf⟩ := ih
    refine ⟨?_, ?_, ?_⟩
    · -- one value
      intro j ind ws rest fuel hsz hc hind hws hb hfuel
      cases fuel with
      | zero => exact absurd hfuel (by omega)
      | succ F =>
        rw [parseVal_ws _ hws]
        cases j with
        | jnull => exact parseVal_null F rest
        | jbool b =>
          cases b with
          | true => exact parseVal_true F rest
          | false => exact parseVal_false F rest
        | jnum tok =>
          rw [canonicalJson] at hc
          have hscan := of_decide_eq_true hc
          obtain ⟨c, t, htok, hh⟩ := scanNumber_head hscan
          subst htok
          have hcw : isJsonWs c = false := by
            rcases hh with h | h
            · subst h; decide
            · exact isJsonWs_of_digit_false h
          have hsc2 : scanNumber (c :: (t ++ rest)) = some (c :: t, rest) := by
            have h2 := scanNumber_ext hscan hb
            rwa [List.cons_append] at h2
          exact parseVal_num F hcw hh hsc2
        | jstr s =>
          rw [show (strfVal ind (.jstr s) ++ rest : Str)
              = '"' :: (s.flatMap escChar ++ '"' :: rest) from by
            rw [strfVal, quoteStr, List.cons_append, List.append_assoc]
            rfl]
          rw [parseVal_quote, parseStringBody_quoted]
        | jarr es =>
          cases es with
          | nil => exact parseVal_arr_nil F rest
          | cons e t =>
            rw [canonicalJson, canonItems, Bool.and_eq_true] at hc
            have hsz2 : jsize e + jsizeL t ≤ N := by
              simp only [jsize, jsizeL] at hsz
              omega
            have hind2 : (ind ++ indentGap).all isJsonWs = true := by
              rw [List.all_append, hind]
              decide
            rw [show (strfVal ind (.jarr (e :: t)) ++ rest : Str)
                = '[' :: ('\n' :: ((ind ++ indentGap) ++ (strfVal (ind ++ indentGap) e
                    ++ (itemsSep (ind ++ indentGap) t ++ ('\n' :: (ind ++ (']' :: rest))))))) from by
              rw [strfVal, strfItems_eq]
              simp [List.append_assoc]]
            rw [parseVal_lbrack]
            rw [show dropLeading isJsonWs
                ('\n' :: ((ind ++ indentGap) ++ (strfVal (ind ++ indentGap) e
                  ++ (itemsSep (ind ++ indentGap) t ++ ('\n' :: (ind ++ (']' :: rest)))))))
                = strfVal (ind ++ indentGap) e
                  ++ (itemsSep (ind ++ indentGap) t ++ ('\n' :: (ind ++ (']' :: rest)))) from by
              rw [show ('\n' :: ((ind ++ indentGap) ++ (strfVal (ind ++ indentGap) e
                  ++ (itemsSep (ind ++ indentGap) t ++ ('\n' :: (ind ++ (']' :: rest)))))) : Str)
                  = ('\n' :: (ind ++ indentGap)) ++ (strfVal (ind ++ indentGap) e
                    ++ (itemsSep (ind ++ indentGap) t ++ ('\n' :: (ind ++ (']' :: rest))))) from rfl]
              rw [dropLeading_append_of_all _ (by rw [List.all_cons, List.all_append, hind]; decide)]
              exact dropLeading_strf hc.1 _]
            have hexp : (strfVal ind (.jarr (e :: t))).length
                = ind.length + 2 + (strfVal (ind ++ indentGap) e).length
                  + (itemsSep (ind ++ indentGap) t).length + ind.length + 4 := by
              rw [strfVal, strfItems_eq]
              simp only [List.length_cons, List.length_append, indentGap, List.length_nil]
              omega
            obtain ⟨c, ct, hsve, hcw, hcne, _⟩ := strfVal_head (ind ++ indentGap) e hc.1
            rw [hsve, List.cons_append]
            split
            · rename_i heq
              rw [List.cons.injEq] at heq
              exact absurd heq.1 hcne
            · rename_i heq
              have harr : parseArrayTail (parseVal F) F (c :: (ct
                  ++ (itemsSep (ind ++ indentGap) t ++ ('\n' :: (ind ++ (']' :: rest))))))
                  = .ok (e :: t, rest) := by
                rw [← List.cons_append, ← hsve]
                refine ihi e t ind (ind ++ indentGap) [] rest F F hsz2 hc.1 hc.2 hind hind2
                  rfl ?_ ?_
                · simp only [List.length_nil]
                  omega
                · simp only [List.length_nil]
                  omega
              rw [harr]
        | jobj ms =>
          cases ms with
          | nil => exact parseVal_obj_nil F rest
          | cons m t =>
            cases m with
            | mk k v =>
              rw [canonicalJson, Bool.and_eq_true] at hc
              have hcf : canonicalJson v = true ∧ canonFieldVals t = true := by
                have h2 := hc.2
                rw [canonFieldVals, Bool.and_eq_true] at h2
                exact h2
              have hsz2 : jsize v + jsizeF t ≤ N := by
                simp only [jsize, jsizeF] at hsz
                omega
              have hind2 : (ind ++ indentGap).all isJsonWs = true := by
                rw [List.all_append, hind]
                decide
              rw [show (strfVal ind (.jobj ((k, v) :: t)) ++ rest : Str)
                  = '\x7b' :: ('\n' :: ((ind ++ indentGap) ++ (quoteStr k
                      ++ (':' :: ' ' :: (strfVal (ind ++ indentGap) v
                        ++ (fieldsSep (ind ++ indentGap) t
                          ++ ('\n' :: (ind ++ ('\x7d' :: rest))))))))) from by
                rw [strfVal, strfFields_eq]
                simp [List.append_assoc]]
              rw [parseVal_lbrace]
              rw [show dropLeading isJsonWs
                  ('\n' :: ((ind ++ indentGap) ++ (quoteStr k
                    ++ (':' :: ' ' :: (strfVal (ind ++ indentGap) v
                      ++ (fieldsSep (ind ++ indentGap) t
                        ++ ('\n' :: (ind ++ ('\x7d' :: rest)))))))))
                  = quoteStr k ++ (':' :: ' ' :: (strfVal (ind ++ indentGap) v
                      ++ (fieldsSep (ind ++ indentGap) t
                        ++ ('\n' :: (ind ++ ('\x7d' :: rest)))))) from by
                rw [show ('\n' :: ((ind ++ indentGap) ++ (quoteStr k
                    ++ (':' :: ' ' :: (strfVal (ind ++ indentGap) v
                      ++ (fieldsSep (ind ++ indentGap) t
                        ++ ('\n' :: (ind ++ ('\x7d' :: rest)))))))) : Str)
                    = ('\n' :: (ind ++ indentGap)) ++ (quoteStr k
                      ++ (':' :: ' ' :: (strfVal (ind ++ indentGap) v
                        ++ (fieldsSep (ind ++ indentGap) t
                          ++ ('\n' :: (ind ++ ('\x7d' :: rest))))))) from rfl]
                rw [dropLeading_append_of_all _
                  (by rw [List.all_cons, List.all_append, hind]; decide)]
                rw [quoteStr, List.cons_append]
                exact dropLeading_cons_of_neg _ (by decide)]
              have hexp : (strfVal ind (.jobj ((k, v) :: t))).length
                  = ind.length + 2 + (quoteStr k).length
                    + (strfVal (ind ++ indentGap) v).length
                    + (fieldsSep (ind ++ indentGap) t).length + ind.length + 6 := by
                rw [strfVal, strfFields_eq]
                simp only [List.length_cons, List.length_append, indentGap, List.length_nil]
                omega
              rw [show (quoteStr k ++ (':' :: ' ' :: (strfVal (ind ++ indentGap) v
                  ++ (fieldsSep (ind ++ indentGap) t
                    ++ ('\n' :: (ind ++ ('\x7d' :: rest)))))) : Str)
                  = '"' :: ((k.flatMap escChar ++ ['"'])
                    ++ (':' :: ' ' :: (strfVal (ind ++ indentGap) v
                      ++ (fieldsSep (ind ++ indentGap) t
                        ++ ('\n' :: (ind ++ ('\x7d' :: rest))))))) from by
                rw [quoteStr, List.cons_append]]
              split
              · rename_i heq
                rw [List.cons.injEq] at heq
                exact absurd heq.1 (by decide)
              · rename_i heq
                have hobj : parseObjectTail (parseVal F) F ('"' :: ((k.flatMap escChar ++ ['"'])
                    ++ (':' :: ' ' :: (strfVal (ind ++ indentGap) v
                      ++ (fieldsSep (ind ++ indentGap) t
                        ++ ('\n' :: (ind ++ ('\x7d' :: rest))))))))
                    = .ok ((k, v) :: t, rest) := by
                  rw [show ('"' :: ((k.flatMap escChar ++ ['"'])
                      ++ (':' :: ' ' :: (strfVal (ind ++ indentGap) v
                        ++ (fieldsSep (ind ++ indentGap) t
                          ++ ('\n' :: (ind ++ ('\x7d' :: rest))))))) : Str)
                      = [] ++ (quoteStr k ++ (':' :: ' ' :: (strfVal (ind ++ indentGap) v
                        ++ (fieldsSep (ind ++ indentGap) t
                          ++ ('\n' :: (ind ++ ('\x7d' :: rest))))))) from by
                    rw [List.nil_append, quoteStr, List.cons_append]]
                  refine ihf k v t ind (ind ++ indentGap) [] rest F F hsz2 hcf.1 hcf.2
                    hind hind2 rfl ?_ ?_
                  · simp only [List.length_nil]
                    omega
                  · simp only [List.length_nil]
                    omega
                rw [hobj]
                simp only [buildFields_of_nodup hc.1]
    · -- array items
      intro e t ind ind' ws rest g f hsz hce hct hind hind' hws hg hf
      cases f with
      | zero => exact absurd hf (by omega)
      | succ f' =>
        rw [parseArrayTail]
        have hb2 : numBoundary (itemsSep ind' t ++ ('\n' :: (ind ++ (']' :: rest)))) = true := by
          cases t with
          | nil => rfl
          | cons e2 t2 => rfl
        have hpv : parseVal g (ws ++ (strfVal ind' e
            ++ (itemsSep ind' t ++ ('\n' :: (ind ++ (']' :: rest))))))
            = .ok (e, itemsSep ind' t ++ ('\n' :: (ind ++ (']' :: rest)))) := by
          refine ihv e ind' ws (itemsSep ind' t ++ ('\n' :: (ind ++ (']' :: rest)))) g
            ?_ hce hind' hws hb2 ?_
          · have := jsizeL_pos t
            omega
          · have hl : (itemsSep ind' t ++ ('\n' :: (ind ++ (']' :: rest)))).length
                = (itemsSep ind' t).length + ind.length + rest.length + 2 := by
              simp only [List.length_append, List.length_cons]
              omega
            omega
        rw [hpv]
        simp only [Bind.bind, Except.bind]
        cases t with
        | nil =>
          rw [show (itemsSep ind' ([] : List Json) ++ ('\n' :: (ind ++ (']' :: rest))) : Str)
              = '\n' :: (ind ++ (']' :: rest)) from by rw [itemsSep]; rfl]
          rw [show dropLeading isJsonWs ('\n' :: (ind ++ (']' :: rest))) = ']' :: rest from by
            rw [show ('\n' :: (ind ++ (']' :: rest)) : Str)
                = ('\n' :: ind) ++ (']' :: rest) from rfl]
            rw [dropLeading_append_of_all _ (by rw [List.all_cons, hind]; decide)]
            exact dropLeading_cons_of_neg _ (by decide)]
          rfl
        | cons e2 t2 =>
          rw [canonItems, Bool.and_eq_true] at hct
          have hsz2 : jsize e2 + jsizeL t2 ≤ N := by
            simp only [jsizeL] at hsz
            have := jsize_pos e
            omega
          have hil : (itemsSep ind' (e2 :: t2)).length
              = (strfVal ind' e2).length + (itemsSep ind' t2).length + ind'.length + 2 := by
            rw [itemsSep]
            simp only [List.length_cons, List.length_append]
            omega
          rw [show (itemsSep ind' (e2 :: t2) ++ ('\n' :: (ind ++ (']' :: rest))) : Str)
              = ',' :: ('\n' :: (ind' ++ (strfVal ind' e2 ++ (itemsSep ind' t2
                  ++ ('\n' :: (ind ++ (']' :: rest))))))) from by
            rw [itemsSep]
            simp [List.append_assoc]]
          rw [show dropLeading isJsonWs (',' :: ('\n' :: (ind' ++ (strfVal ind' e2
              ++ (itemsSep ind' t2 ++ ('\n' :: (ind ++ (']' :: rest))))))))
              = ',' :: ('\n' :: (ind' ++ (strfVal ind' e2
                ++ (itemsSep ind' t2 ++ ('\n' :: (ind ++ (']' :: rest))))))) from
            dropLeading_cons_of_neg _ (by decide)]
          have hrec : parseArrayTail (parseVal g) f' (('\n' :: ind') ++ (strfVal ind' e2
              ++ (itemsSep ind' t2 ++ ('\n' :: (ind ++ (']' :: rest))))))
              = .ok (e2 :: t2, rest) := by
            refine ihi e2 t2 ind ind' ('\n' :: ind') rest g f' hsz2 hct.1 hct.2 hind hind'
              (by rw [List.all_cons, hind']; decide) ?_ ?_
            · simp only [List.length_cons]
              omega
            · simp only [List.length_cons]
              omega
          split
          · rename_i heq
            rw [List.cons.injEq] at heq
            obtain ⟨-, h2⟩ := heq
            subst h2
            rw [show ('\n' :: (ind' ++ (strfVal ind' e2 ++ (itemsSep ind' t2
                ++ ('\n' :: (ind ++ (']' :: rest)))))) : Str)
                = ('\n' :: ind') ++ (strfVal ind' e2 ++ (itemsSep ind' t2
                  ++ ('\n' :: (ind ++ (']' :: rest))))) from rfl]
            rw [hrec]
            rfl
          · rename_i heq
            rw [List.cons.injEq] at heq
            exact absurd heq.1 (by decide)
          · rename_i h1 h2
            exact absurd rfl (h1 ('\n' :: (ind' ++ (strfVal ind' e2 ++ (itemsSep ind' t2
              ++ ('\n' :: (ind ++ (']' :: rest))))))))
    · -- object members
      intro k v t ind ind' ws rest g f hsz hcv hct hind hind' hws hg hf
      cases f with
      | zero => exact absurd hf (by omega)
      | succ f' =>
        rw [parseObjectTail_ws _ _ hws]
        rw [show (quoteStr k ++ (':' :: ' ' :: (strfVal ind' v
            ++ (fieldsSep ind' t ++ ('\n' :: (ind ++ ('\x7d' :: rest)))))) : Str)
            = '"' :: (k.flatMap escChar ++ '"' :: (':' :: ' ' :: (strfVal ind' v
              ++ (fieldsSep ind' t ++ ('\n' :: (ind ++ ('\x7d' :: rest))))))) from by
          rw [quoteStr, List.cons_append, List.append_assoc]
          rfl]
        have hb2 : numBoundary (fieldsSep ind' t
            ++ ('\n' :: (ind ++ ('\x7d' :: rest)))) = true := by
          cases t with
          | nil => rfl
          | cons m2 t2 =>
            cases m2
            rfl
        have hqk : (quoteStr k).length = (k.flatMap escChar).length + 2 := by
          rw [quoteStr]
          simp [List.length_append]
        have hpv : parseVal g (' ' :: (strfVal ind' v
            ++ (fieldsSep ind' t ++ ('\n' :: (ind ++ ('\x7d' :: rest))))))
            = .ok (v, fieldsSep ind' t ++ ('\n' :: (ind ++ ('\x7d' :: rest)))) := by
          rw [show (' ' :: (strfVal ind' v
              ++ (fieldsSep ind' t ++ ('\n' :: (ind ++ ('\x7d' :: rest))))) : Str)
              = [' '] ++ (strfVal ind' v
                ++ (fieldsSep ind' t ++ ('\n' :: (ind ++ ('\x7d' :: rest))))) from rfl]
          refine ihv v ind' [' ']
            (fieldsSep ind' t ++ ('\n' :: (ind ++ ('\x7d' :: rest)))) g
            ?_ hcv hind' (by decide) hb2 ?_
          · have := jsizeF_pos t
            omega
          · have hl : (fieldsSep ind' t ++ ('\n' :: (ind ++ ('\x7d' :: rest)))).length
                = (fieldsSep ind' t).length + ind.length + rest.length + 2 := by
              simp only [List.length_append, List.length_cons]
              omega
            simp only [List.length_cons, List.length_nil]
            omega
        rw [parseObjectTail_step (parseVal g) f' k v _ _ hpv]
        cases t with
        | nil =>
          rw [show (fieldsSep ind' ([] : List (Str × Json))
              ++ ('\n' :: (ind ++ ('\x7d' :: rest))) : Str)
              = '\n' :: (ind ++ ('\x7d' :: rest)) from by rw [fieldsSep]; rfl]
          rw [show dropLeading isJsonWs ('\n' :: (ind ++ ('\x7d' :: rest)))
              = '\x7d' :: rest from by
            rw [show ('\n' :: (ind ++ ('\x7d' :: rest)) : Str)
                = ('\n' :: ind) ++ ('\x7d' :: rest) from rfl]
            rw [dropLeading_append_of_all _ (by rw [List.all_cons, hind]; decide)]
            exact dropLeading_cons_of_neg _ (by decide)]
          rfl
        | cons m2 t2 =>
          cases m2 with
          | mk k2 v2 =>
            have hcf2 : canonicalJson v2 = true ∧ canonFieldVals t2 = true := by
              have h2 := hct
              rw [canonFieldVals, Bool.and_eq_true] at h2
              exact h2
            have hsz2 : jsize v2 + jsizeF t2 ≤ N := by
              simp only [jsizeF] at hsz
              have := jsize_pos v
              omega
            have hfl : (fieldsSep ind' ((k2, v2) :: t2)).length
                = (quoteStr k2).length + (strfVal ind' v2).length
                  + (fieldsSep ind' t2).length + ind'.length + 4 := by
              rw [fieldsSep]
              simp only [List.length_cons, List.length_append]
              omega
            rw [show (fieldsSep ind' ((k2, v2) :: t2)
                ++ ('\n' :: (ind ++ ('\x7d' :: rest))) : Str)
                = ',' :: ('\n' :: (ind' ++ (quoteStr k2 ++ (':' :: ' ' :: (strfVal ind' v2
                    ++ (fieldsSep ind' t2 ++ ('\n' :: (ind ++ ('\x7d' :: rest))))))))) from by
              rw [fieldsSep]
              simp [List.append_assoc]]
            rw [show dropLeading isJsonWs (',' :: ('\n' :: (ind' ++ (quoteStr k2
                ++ (':' :: ' ' :: (strfVal ind' v2
                  ++ (fieldsSep ind' t2 ++ ('\n' :: (ind ++ ('\x7d' :: rest))))))))))
                = ',' :: ('\n' :: (ind' ++ (quoteStr k2 ++ (':' :: ' ' :: (strfVal ind' v2
                  ++ (fieldsSep ind' t2 ++ ('\n' :: (ind ++ ('\x7d' :: rest))))))))) from
              dropLeading_cons_of_neg _ (by decide)]
            have hrec : parseObjectTail (parseVal g) f' (('\n' :: ind') ++ (quoteStr k2
                ++ (':' :: ' ' :: (strfVal ind' v2
                  ++ (fieldsSep ind' t2 ++ ('\n' :: (ind ++ ('\x7d' :: rest))))))))
                = .ok ((k2, v2) :: t2, rest) := by
              refine ihf k2 v2 t2 ind ind' ('\n' :: ind') rest g f' hsz2 hcf2.1 hcf2.2
                hind hind' (by rw [List.all_cons, hind']; decide) ?_ ?_
              · simp only [List.length_cons]
                omega
              · simp only [List.length_cons]
                omega
            split
            · rename_i heq
              rw [List.cons.injEq] at heq
              obtain ⟨-, h2⟩ := heq
              subst h2
              rw [show ('\n' :: (ind' ++ (quoteStr k2 ++ (':' :: ' ' :: (strfVal ind' v2
                  ++ (fieldsSep ind' t2 ++ ('\n' :: (ind ++ ('\x7d' :: rest)))))))) : Str)
                  = ('\n' :: ind') ++ (quoteStr k2 ++ (':' :: ' ' :: (strfVal ind' v2
                    ++ (fieldsSep ind' t2 ++ ('\n' :: (ind ++ ('\x7d' :: rest))))))) from rfl]
              rw [hrec]
              rfl
            · rename_i heq
              rw [List.cons.injEq] at heq
              exact absurd heq.1 (by decide)
            · rename_i h1 h2
              exact absurd rfl (h1 ('\n' :: (ind' ++ (quoteStr k2
                ++ (':' :: ' ' :: (strfVal ind' v2
                  ++ (fieldsSep ind' t2 ++ ('\n' :: (ind ++ ('\x7d' :: rest))))))))))

/-- Parsing the pretty-printed text of a canonical value — after any JSON
whitespace, before any text that cannot extend a number token — recovers the
value and the trailing text exactly. -/
theorem rt_val (j : Json) (ind ws rest : Str) (fuel : Nat)
    (hc : canonicalJson j = true) (hind : ind.all isJsonWs = true)
    (hws : ws.all isJsonWs = true) (hb : numBoundary rest = true)
    (hfuel : ws.length + (strfVal ind j).length + rest.length < fuel) :
    parseVal fuel (ws ++ (strfVal ind j ++ rest)) = .ok (j, rest) :=
  (rt_main (jsize j)).1 j ind ws rest fuel (Nat.le_refl _) hc hind hws hb hfuel

/-- Parsing the pretty-printed text of a canonical value recovers it: the
`JSON.parse` / `JSON.stringify(·, null, 2)` round trip. -/
theorem jsonParse_stringify {g : Json} (hc : canonicalJson g = true) :
    jsonParse (stringifyPretty g) = .ok g := by
  have h := rt_val g [] [] [] ((stringifyPretty g).length + 1) hc rfl rfl rfl
    (by simp only [stringifyPretty, List.length_nil]; omega)
  rw [List.nil_append, List.append_nil] at h
  rw [jsonParse,
    show parseVal ((stringifyPretty g).length + 1) (stringifyPretty g) = .ok (g, []) from h]
  rfl

/-! ## The export/import round trip -/

/-- A descriptor that passes the required-field validation is a nonempty
object. -/
theorem validate_obj_of_ok {g : Json} (h : validateGameData g = .ok true) :
    ∃ m t, g = .jobj (m :: t) := by
  cases g with
  | jnull => exact (nomatch h)
  | jbool b => exact (nomatch h)
  | jnum tok => exact (nomatch h)
  | jstr s => exact (nomatch h)
  | jarr es => exact (nomatch h)
  | jobj fields =>
    cases fields with
    | nil => exact (nomatch h)
    | cons m t => exact ⟨m, t, rfl⟩

theorem stringifyPretty_obj_head (m : Str × Json) (t : List (Str × Json)) :
    (stringifyPretty (.jobj (m :: t))).head? = some '\x7b' := rfl

theorem stringifyPretty_obj_last (m : Str × Json) (t : List (Str × Json)) :
    (stringifyPretty (.jobj (m :: t))).getLast? = some '\x7d' := by
  rw [stringifyPretty, strfVal]
  rw [show ('\x7b' :: '\n' :: (strfFields ([] ++ indentGap) (m :: t)
      ++ '\n' :: ([] ++ ['\x7d'])) : Str)
      = ('\x7b' :: '\n' :: (strfFields ([] ++ indentGap) (m :: t) ++ ['\n'])) ++ ['\x7d'] from by
    simp]
  exact List.getLast?_concat _

/-- A suffix test refuted by the last characters. -/
theorem isSuffixOf_false_of_last {l s : Str} {a b : Char} (hl : l.getLast? = some a)
    (hs : s.getLast? = some b) (hab : a ≠ b) : l.isSuffixOf s = false := by
  cases hsuf : l.isSuffixOf s with
  | false => rfl
  | true =>
    exfalso
    obtain ⟨u, hu⟩ := List.isSuffixOf_iff_suffix.1 hsuf
    rw [← hu, List.getLast?_append, hl] at hs
    rw [show (some a).or u.getLast? = some a from rfl] at hs
    simp only [Option.some.injEq] at hs
    exact hab hs

/-- Dropping a common last character preserves the suffix test. -/
theorem isSuffixOf_snoc_iff {l s : Str} {c : Char} :
    (l ++ [c]).isSuffixOf (s ++ [c]) = l.isSuffixOf s := by
  have hiff : (l ++ [c]).isSuffixOf (s ++ [c]) = true ↔ l.isSuffixOf s = true := by
    rw [List.isSuffixOf_iff_suffix, List.isSuffixOf_iff_suffix]
    rw [← List.reverse_prefix, ← List.reverse_prefix]
    simp only [List.reverse_append, List.reverse_singleton, List.singleton_append]
    rw [List.cons_prefix_cons]
    simp
  cases hb : l.isSuffixOf s with
  | true => exact hiff.2 hb
  | false =>
    cases ha : (l ++ [c]).isSuffixOf (s ++ [c]) with
    | false => rfl
    | true =>
      rw [hiff.1 ha] at hb
      exact absurd hb (by decide)

/-- Claim C3 amended: exporting a (descriptor, script) pair and re-parsing
the exported text reproduces the descriptor exactly and the script exactly,
provided the descriptor is canonical, passes the required-field validation,
and its serialization contains neither the begin marker nor a JSON fence
opener, and the script is trimmed and free of the end marker and of
case-insensitive script-tag fragments.  (Without these provisos the round
trip fails — see the counterexample.) -/
theorem export_import_round_trip (g : Json) (script : Str)
    (hcanon : canonicalJson g = true)
    (hval : validateGameData g = .ok true)
    (hnb : occursIn beginMarker (stringifyPretty g) = false)
    (hnf : occursIn (("\x60\x60\x60json").data) (stringifyPretty g) = false)
    (hne : occursIn endMarker script = false)
    (hno : occursInCi (("<script").data) script = false)
    (hnc : occursInCi (("</script>").data) script = false)
    (htrim : jsTrim script = script) :
    parseAiOutput (exportFileContent g script) = .ok ⟨some g, some script, none⟩ := by
  obtain ⟨m, t, hg⟩ := validate_obj_of_ok hval
  subst hg
  have hsplit : splitAtFirst beginMarker (exportFileContent (.jobj (m :: t)) script)
      = some (stringifyPretty (.jobj (m :: t)) ++ ['\n'],
          '\n' :: (script ++ '\n' :: endMarker)) := by
    rw [exportFileContent]
    exact splitAtFirst_after_boundary (by decide) (by decide) _ hnb
  have hblank := trim_ne_empty_of_marker_found hsplit
  have hfence : stripJsonFence (stringifyPretty (.jobj (m :: t)) ++ ['\n'])
      = stringifyPretty (.jobj (m :: t)) ++ ['\n'] := by
    rw [stripJsonFence]
    rw [show splitAtFirst (("\x60\x60\x60json").data)
        (stringifyPretty (.jobj (m :: t)) ++ ['\n']) = none from
      splitAtFirstBy_none_append_boundary (by decide) (occursIn_false_iff.1 hnf)]
  have hendf : stripEndFence (stringifyPretty (.jobj (m :: t)) ++ ['\n'])
      = stringifyPretty (.jobj (m :: t)) ++ ['\n'] := by
    have hlast := stringifyPretty_obj_last m t
    have hc1 : ((("\x60\x60\x60").data ++ ['\n']).isSuffixOf
        (stringifyPretty (.jobj (m :: t)) ++ ['\n'])) = false := by
      rw [isSuffixOf_snoc_iff]
      exact isSuffixOf_false_of_last (by rfl) hlast (by decide)
    have hc2 : ((("\x60\x60\x60").data).isSuffixOf
        (stringifyPretty (.jobj (m :: t)) ++ ['\n'])) = false := by
      exact isSuffixOf_false_of_last (by rfl) (List.getLast?_concat _) (by decide)
    rw [stripEndFence, if_neg (by rw [hc1]; simp), if_neg (by rw [hc2]; simp)]
  have htrimP : jsTrim (stringifyPretty (.jobj (m :: t)) ++ ['\n'])
      = stringifyPretty (.jobj (m :: t)) := by
    rw [jsTrim_append_ws (by decide)]
    refine jsTrim_eq_self ?_ ?_
    · intro c hcc
      rw [stringifyPretty_obj_head] at hcc
      cases hcc
      decide
    · intro c hcc
      rw [stringifyPretty_obj_last] at hcc
      cases hcc
      decide
  have hend : splitAtFirst endMarker ('\n' :: (script ++ '\n' :: endMarker))
      = some ('\n' :: (script ++ ['\n']), []) := by
    have h3 := @splitAtFirst_after_boundary endMarker '\n'
      (by decide) (by decide) ('\n' :: script) [] (by
        rw [occursIn_false_iff]
        exact splitAtFirstBy_none_cons_boundary (by decide) (occursIn_false_iff.1 hne))
    rw [List.append_nil] at h3
    exact h3
  have hciopen : splitAtFirstCi (("<script").data) script = none := by
    cases hx : splitAtFirstCi (("<script").data) script with
    | none => rfl
    | some pr =>
      rw [occursInCi, hx] at hno
      simp at hno
  have hciclose : splitAtFirstCi (("</script>").data) script = none := by
    cases hx : splitAtFirstCi (("</script>").data) script with
    | none => rfl
    | some pr =>
      rw [occursInCi, hx] at hnc
      simp at hnc
  have hopen : stripOpenScriptTag ('\n' :: (script ++ ['\n']))
      = '\n' :: (script ++ ['\n']) := by
    rw [stripOpenScriptTag]
    rw [show splitAtFirstCi (("<script").data) ('\n' :: (script ++ ['\n'])) = none from
      splitAtFirstBy_none_cons_boundary (by decide)
        (splitAtFirstBy_none_append_boundary (by decide) hciopen)]
  have hclose : stripCloseScriptTag ('\n' :: (script ++ ['\n']))
      = '\n' :: (script ++ ['\n']) := by
    rw [stripCloseScriptTag]
    rw [show splitAtFirstCi (("</script>").data) ('\n' :: (script ++ ['\n'])) = none from
      splitAtFirstBy_none_cons_boundary (by decide)
        (splitAtFirstBy_none_append_boundary (by decide) hciclose)]
  have hjs : jsTrim ('\n' :: (script ++ ['\n'])) = script := by
    rw [jsTrim_cons_ws (by decide), jsTrim_append_ws (by decide), htrim]
  rw [parseAiOutput]
  simp only [hblank, Bool.false_eq_true, if_false, hsplit, hfence, hendf, htrimP,
    jsonParse_stringify hcanon, hval, hend, hopen, hclose, hjs]

/-- Claim C3 counterexample: for the valid descriptor
`{"title":"T","description":"D","how_to_play":["A"]}` and the script
`a%%ENDCODE%%b`, exporting and re-parsing truncates the script at the
embedded end marker: the re-parsed script is `a`, not the original, so the
round trip does not hold for every (descriptor, script) pair. -/
theorem end_marker_in_script_breaks_round_trip :
    parseAiOutput (exportFileContent
        (Json.jobj [((("title").data), Json.jstr (("T").data)),
          ((("description").data), Json.jstr (("D").data)),
          ((("how_to_play").data), Json.jarr [Json.jstr (("A").data)])])
        (("a%%ENDCODE%%b").data))
      = .ok ⟨some (Json.jobj [((("title").data), Json.jstr (("T").data)),
          ((("description").data), Json.jstr (("D").data)),
          ((("how_to_play").data), Json.jarr [Json.jstr (("A").data)])]),
          some (("a").data), none⟩
    ∧ (("a").data : Str) ≠ (("a%%ENDCODE%%b").data : Str) := by
  refine ⟨by rfl, by decide⟩

theorem export_import_round_trip_witness :
    parseAiOutput (exportFileContent
        (Json.jobj [((("title").data), Json.jstr (("T").data)),
          ((("description").data), Json.jstr (("D").data)),
          ((("how_to_play").data), Json.jarr [Json.jstr (("A").data)])])
        (("var x=1;").data))
      = .ok ⟨some (Json.jobj [((("title").data), Json.jstr (("T").data)),
          ((("description").data), Json.jstr (("D").data)),
          ((("how_to_play").data), Json.jarr [Json.jstr (("A").data)])]),
          some (("var x=1;").data), none⟩ :=
  export_import_round_trip
    (Json.jobj [((("title").data), Json.jstr (("T").data)),
      ((("description").data), Json.jstr (("D").data)),
      ((("how_to_play").data), Json.jarr [Json.jstr (("A").data)])])
    (("var x=1;").data)
    (by rfl) (by rfl) (by rfl) (by rfl) (by rfl) (by rfl) (by rfl) (by rfl)

end Ainara
